import Mathlib

/-!
Verification of the PubMed MCP server core (src/pubmed-api.ts) against its
specification.  The TypeScript source consumes XML parsed by xml2js with
explicitArray: false; parsed values are dynamically typed JavaScript values:
strings, arrays, and plain objects whose fields hold further such values
(text content under the field named with an underscore, attributes under the
field named with a dollar sign).  We embed that value space as JVal and
translate the extraction, normalization and batch-orchestration functions
directly from the source.  Network and wall-clock effects are represented by
an explicit environment (Env) and an event trace (Ev).
-/

set_option maxHeartbeats 1600000

/-- A parsed XML value as produced by xml2js with explicitArray: false.
Numbers, booleans and null do not occur in that output, so the embedding
omits them. -/
inductive JVal where
  | str : String → JVal
  | arr : List JVal → JVal
  | obj : List (String × JVal) → JVal
deriving Repr

/-! ## Sizes, for termination of the recursive tree walkers -/

mutual
def JVal.sz : JVal → Nat
  | .str _ => 1
  | .arr xs => 1 + szL xs
  | .obj fs => 1 + szF fs
def szL : List JVal → Nat
  | [] => 0
  | x :: xs => 1 + JVal.sz x + szL xs
def szF : List (String × JVal) → Nat
  | [] => 0
  | p :: fs => 1 + JVal.sz p.2 + szF fs
end

/-! ## JavaScript value primitives: property access, truthiness, coercion -/

/-- First binding of a key in an object field list (xml2js never produces
duplicate keys). -/
def lookupField : List (String × JVal) → String → Option JVal
  | [], _ => none
  | (k, v) :: fs, key => if k = key then some v else lookupField fs key

/-- JS property access v.key: an object yields its field (or undefined),
a string or array primitive yields undefined for the property names this
code uses.  none models undefined. -/
def jsField : JVal → String → Option JVal
  | .obj fs, key => lookupField fs key
  | _, _ => none

/-- JS truthiness of a defined value: the empty string is falsy, every
array and object is truthy. -/
def truthy : JVal → Bool
  | .str s => s ≠ ""
  | .arr _ => true
  | .obj _ => true

/-- Truthiness of a possibly-undefined value. -/
def otruthy : Option JVal → Bool
  | some v => truthy v
  | none => false

/-- Access e.k guarded by a JS truthiness test, as in
if (e.k) then use e.k: some v iff the field is present and truthy. -/
def lookupTruthy (e : JVal) (k : String) : Option JVal :=
  match jsField e k with
  | some v => if truthy v then some v else none
  | none => none

/-- v || d for a possibly-undefined v and a default d. -/
def jsOr (o : Option JVal) (d : JVal) : JVal :=
  match o with
  | some v => if truthy v then v else d
  | none => d

/-- a || b where both sides may be undefined (the second operand of an
optional-chain default). -/
def jsOrOpt (a b : Option JVal) : Option JVal :=
  match a with
  | some v => if truthy v then some v else b
  | none => b

/-- Optional chaining o?.k. -/
def jsOpt (o : Option JVal) (k : String) : Option JVal :=
  o.bind (fun v => jsField v k)

/-- JS index access v[0]: head of an array, field named 0 of an object,
first character of a string. -/
def jsIndex0 : JVal → Option JVal
  | .arr xs => xs.head?
  | .obj fs => lookupField fs "0"
  | .str s =>
    match s.data with
    | [] => none
    | c :: _ => some (.str ⟨[c]⟩)

/-- Array.isArray(v) ? v : [v], the single-to-list normalization applied
throughout the source. -/
def toArray : JVal → List JVal
  | .arr xs => xs
  | v => [v]

/-! JS ToString of a parsed value, as performed by template literals and
Array.prototype.join on non-string entries: a string is itself, an array
joins the conversions of its items with commas, a plain object converts to
the fixed object placeholder text. -/
mutual
def jsToString : JVal → String
  | .str s => s
  | .arr xs => jsToStringL xs
  | .obj _ => "[object Object]"
def jsToStringL : List JVal → String
  | [] => ""
  | [x] => jsToString x
  | x :: xs => jsToString x ++ "," ++ jsToStringL xs
end

/-! ## Trim, modelling String.prototype.trim on the character sets in play -/

def wsChar (c : Char) : Bool := c.isWhitespace

def trimLeftL (l : List Char) : List Char := l.dropWhile wsChar

def trimRightL (l : List Char) : List Char := (l.reverse.dropWhile wsChar).reverse

/-- s.trim() in JavaScript: strip leading and trailing whitespace. -/
def jsTrim (s : String) : String := ⟨trimRightL (trimLeftL s.data)⟩

/-! ## Size lemmas used by the termination arguments -/

theorem sz_pos (v : JVal) : 1 ≤ v.sz := by
  cases v <;> simp only [JVal.sz] <;> omega

theorem szF_lookup {fs : List (String × JVal)} {k : String} {v : JVal}
    (h : lookupField fs k = some v) : v.sz < szF fs := by
  induction fs with
  | nil => simp [lookupField] at h
  | cons p ps ih =>
    simp only [lookupField] at h
    split at h
    · cases h; simp only [szF]; omega
    · have := ih h; simp only [szF]; omega

theorem sz_jsField {e : JVal} {k : String} {v : JVal} (h : jsField e k = some v) :
    v.sz + 2 ≤ e.sz := by
  cases e with
  | str s => simp [jsField] at h
  | arr xs => simp [jsField] at h
  | obj fs =>
    simp only [jsField] at h
    have := szF_lookup h
    simp only [JVal.sz]; omega

theorem sz_lookupTruthy {e : JVal} {k : String} {v : JVal}
    (h : lookupTruthy e k = some v) : v.sz + 2 ≤ e.sz := by
  unfold lookupTruthy at h
  split at h
  · split at h
    · cases h; exact sz_jsField (by assumption)
    · cases h
  · cases h

theorem szL_toArray (v : JVal) : szL (toArray v) ≤ 1 + v.sz := by
  cases v with
  | arr xs => simp only [toArray, JVal.sz]; omega
  | str s => simp only [toArray, szL, JVal.sz]; omega
  | obj fs => simp only [toArray, szL, JVal.sz]; omega

theorem szL_map_snd (fs : List (String × JVal)) :
    szL (fs.map (·.2)) = szF fs := by
  induction fs with
  | nil => simp [szL, szF]
  | cons p ps ih => simp only [List.map, szL, szF]; omega

/-! ## The recursive text extractor (function extractText inside getFullText)

For a string, return it.  For an object, if its inner-text field is truthy
return it (coerced by the string context of every caller); otherwise walk
every field value in order, recursing element-wise into array values, each
contribution followed by one space, and trim the result.  An array input is
also typeof object in JS; its Object.values are its items. -/

mutual
def extractText : JVal → String
  | .str s => s
  | .arr xs => jsTrim (extractVals xs)
  | .obj fs =>
    match lookupField fs "_" with
    | some u =>
      if truthy u then jsToString u
      else jsTrim (extractVals (fs.map (·.2)))
    | none => jsTrim (extractVals (fs.map (·.2)))
termination_by v => 2 * v.sz
decreasing_by
  all_goals simp only [JVal.sz, szL_map_snd]
  all_goals omega

def extractVals : List JVal → String
  | [] => ""
  | .arr items :: vs => extractItems items ++ extractVals vs
  | v :: vs => extractText v ++ " " ++ extractVals vs
termination_by vs => 2 * szL vs + 1
decreasing_by
  all_goals simp only [szL, JVal.sz]
  all_goals omega

def extractItems : List JVal → String
  | [] => ""
  | i :: is => extractText i ++ " " ++ extractItems is
termination_by is => 2 * szL is + 1
decreasing_by
  all_goals simp only [szL]
  all_goals omega
end

/-! ## The duplicated fallback extractor (function fallbackExtractText)

The source repeats the walker with an extra guard that skips values that are
neither objects nor strings; on xml2js output (our whole value space) the
guard never fires, so the walk is the same shape.  It is kept as its own
definition to mirror the duplication in the source. -/

mutual
def fallbackExtractText : JVal → String
  | .str s => s
  | .arr xs => jsTrim (fbVals xs)
  | .obj fs =>
    match lookupField fs "_" with
    | some u =>
      if truthy u then jsToString u
      else jsTrim (fbVals (fs.map (·.2)))
    | none => jsTrim (fbVals (fs.map (·.2)))
termination_by v => 2 * v.sz
decreasing_by
  all_goals simp only [JVal.sz, szL_map_snd]
  all_goals omega

def fbVals : List JVal → String
  | [] => ""
  | .arr items :: vs => fbItems items ++ fbVals vs
  | v :: vs => fallbackExtractText v ++ " " ++ fbVals vs
termination_by vs => 2 * szL vs + 1
decreasing_by
  all_goals simp only [szL, JVal.sz]
  all_goals omega

def fbItems : List JVal → String
  | [] => ""
  | i :: is => fallbackExtractText i ++ " " ++ fbItems is
termination_by is => 2 * szL is + 1
decreasing_by
  all_goals simp only [szL]
  all_goals omega
end

/-! ## Section reconstruction (function processSections inside getFullText) -/

/-- A titled block of reconstructed article body text. -/
structure Section where
  title : String
  content : String
deriving Repr, DecidableEq

/-- The paragraph accumulation loop: for each paragraph, extract its text;
if the trimmed text is non-empty append it plus a blank-line separator. -/
def collectParas (ps : List JVal) : String :=
  ps.foldl (fun acc p =>
    let t := jsTrim (extractText p)
    if t ≠ "" then acc ++ t ++ "\n\n" else acc) ""

/-- The push step shared by the two emission sites of processSections: when
the accumulated raw content trims to something non-empty, push one Section
holding the trimmed content and append title, newline, raw content, newline
to the full-text buffer. -/
def pushSec (t c : String) : List Section × String :=
  if jsTrim c ≠ "" then ([⟨t, jsTrim c⟩], t ++ "\n" ++ c ++ "\n")
  else ([], "")

/-- Section title resolution: the trimmed extracted title when the title
field is truthy and its text trims non-empty, else the inherited title. -/
def resolveTitle (s : JVal) (inherited : String) : String :=
  match lookupTruthy s "title" with
  | some tv =>
    let tt := jsTrim (extractText tv)
    if tt ≠ "" then tt else inherited
  | none => inherited

/-- The paragraph content of one node, from its truthy p field. -/
def secContentOf (s : JVal) : String :=
  match lookupTruthy s "p" with
  | some pv => collectParas (toArray pv)
  | none => ""

/-! processSections mutates two outer variables, the section list and the
full-text buffer; the embedding returns the sections pushed and the text
appended, in order.  processSecList is the forEach loop over the normalized
list of sec children: each child resolves its title, gathers its paragraph
content, then either recurses into the whole child node (when the child has
truthy nested secs, discarding the gathered content at this level) or pushes
the gathered content.  After the sec walk the element in hand gets its own
direct paragraphs pushed under the inherited title. -/
/-- The direct-paragraph part of processSections: the element in hand has
its own truthy p field pushed under the inherited title. -/
def pPartOf (element : JVal) (sectionTitle : String) : List Section × String :=
  match lookupTruthy element "p" with
  | some pv => pushSec sectionTitle (collectParas (toArray pv))
  | none => (([] : List Section), "")

mutual
def processSections (element : JVal) (sectionTitle : String) : List Section × String :=
  let secPart :=
    match h : lookupTruthy element "sec" with
    | some v => processSecList (toArray v) sectionTitle
    | none => (([] : List Section), "")
  let pPart := pPartOf element sectionTitle
  (secPart.1 ++ pPart.1, secPart.2 ++ pPart.2)
termination_by 2 * element.sz
decreasing_by
  have h1 := sz_lookupTruthy h
  have h2 := szL_toArray v
  omega

def processSecList (secs : List JVal) (sectionTitle : String) : List Section × String :=
  match secs with
  | [] => ([], "")
  | s :: rest =>
    let secTitle := resolveTitle s sectionTitle
    let headOut :=
      match lookupTruthy s "sec" with
      | some _ => processSections s secTitle
      | none => pushSec secTitle (secContentOf s)
    let restOut := processSecList rest sectionTitle
    (headOut.1 ++ restOut.1, headOut.2 ++ restOut.2)
termination_by 2 * szL secs + 1
decreasing_by
  · simp only [szL]; omega
  · simp only [szL]; omega
end

/-! ## Result record types (the TypeScript interfaces)

Fields that the source reads straight out of the dynamic XML tree are typed
JVal (the TS string annotations are not enforced at runtime); fields the
source builds itself by string operations are String; optional fields that
can end up holding undefined are Option JVal. -/

structure PubMedArticle where
  pmid : JVal
  title : JVal
  authors : List JVal
  journal : JVal
  publicationDate : String
  abstract : String
  doi : Option JVal
  pmcId : Option JVal
  url : String
deriving Repr

structure PubMedSummary where
  pmid : Option JVal
  title : JVal
  authors : List String
  journal : JVal
  publicationDate : JVal
  doi : Option JVal
  pmcId : Option JVal
deriving Repr

structure FullAbstractResult where
  pmid : JVal
  title : JVal
  authors : List JVal
  journal : JVal
  publicationDate : String
  fullAbstract : String
  doi : Option JVal
  pmcId : Option JVal
deriving Repr

structure FullTextResult where
  pmid : JVal
  pmcId : String
  title : Option JVal
  fullText : String
  sections : List Section
deriving Repr

structure CitationCountResult where
  pmid : String
  title : JVal
  citationCount : Nat
  citingPmids : List JVal
  error : Option String
deriving Repr

/-- Payload type of the findSimilarArticles collaborator, which the batch
orchestrator calls at its boundary.  The similarity score is kept as the raw
score text, float parsing being outside the embedding; no claim reads it. -/
structure SimilarArticleResult where
  pmid : JVal
  title : JVal
  authors : List JVal
  journal : JVal
  publicationDate : String
  abstract : String
  similarityScore : Option String
  doi : Option JVal
  pmcId : Option JVal
deriving Repr

/-- Payload type of the exportRIS collaborator. -/
structure RISExportResult where
  pmids : List String
  risData : String
  successCount : Nat
  errorCount : Nat
  errors : List String
deriving Repr

/-! ## Network and pacing effects -/

/-- One observable outbound effect: a fetch against one of the endpoints, or
a pacing sleep of the given number of milliseconds. -/
inductive Ev where
  | fetchSummaries (ids : List String)
  | fetchDetails (ids : List String)
  | fetchAbstract (ids : List String)
  | fetchFullText (id : String)
  | fetchElink (id : String)
  | fetchSimilar (id : String)
  | fetchRis (ids : List String)
  | sleep (ms : Nat)
deriving Repr, DecidableEq

/-- The environment: what the remote service and the clock supply.  Each
fetch is keyed by the identifiers it carries.  A false Ok flag models a
non-2xx transport response with the given status code; Parsed gives the
xml2js value of the response body.  findSimilarArticles and exportRIS are
collaborators outside the claims and are modelled at their call boundary:
similarResult may raise (its source rethrows labeled errors), risResult is
total (its source catches everything internally). -/
structure Env where
  now : Nat
  summariesOk : List String → Bool
  summariesStatus : List String → Nat
  summariesParsed : List String → JVal
  detailsOk : List String → Bool
  detailsStatus : List String → Nat
  detailsParsed : List String → JVal
  abstractOk : List String → Bool
  abstractStatus : List String → Nat
  abstractParsed : List String → JVal
  ftOk : String → Bool
  ftRawErr : String → Bool
  ftParsed : String → JVal
  elinkOk : String → Bool
  elinkStatus : String → Nat
  elinkParsed : String → JVal
  similarResult : String → Except String (List SimilarArticleResult)
  risResult : List String → RISExportResult

/-! ## Shared helpers of the record normalizer -/

/-- JS Array.prototype.join with a separator. -/
def joinSep (sep : String) : List String → String
  | [] => ""
  | [x] => x
  | x :: xs => x ++ sep ++ joinSep sep xs

/-- A map over a list whose body can raise a runtime TypeError: none as soon
as one element crashes, mirroring the exception escaping Array.prototype.map. -/
def mapOpt {α β : Type} (f : α → Option β) : List α → Option (List β)
  | [] => some []
  | a :: rest =>
    match f a, mapOpt f rest with
    | some b, some bs => some (b :: bs)
    | _, _ => none

/-- Assignment m[k] = v on a JS object used as a map: overwrite in place if
the key exists, else append (insertion order preserved). -/
def upsertKey {β : Type} (m : List (String × β)) (k : String) (v : β) : List (String × β) :=
  if m.any (fun p => p.1 == k) then m.map (fun p => if p.1 == k then (k, v) else p)
  else m ++ [(k, v)]

/-- Author display name: given-name surname when both are truthy, else the
collective name when truthy, else the fixed placeholder. -/
def authorAlt (a : JVal) : JVal :=
  match jsField a "CollectiveName" with
  | some cn => if truthy cn then cn else .str "Unknown Author"
  | none => .str "Unknown Author"

def authorName (a : JVal) : JVal :=
  match jsField a "ForeName", jsField a "LastName" with
  | some fn, some ln =>
    if truthy fn && truthy ln then .str (jsToString fn ++ " " ++ jsToString ln)
    else authorAlt a
  | _, _ => authorAlt a

/-- articleData.AuthorList?.Author || [], normalized to a list, mapped to
display names, empties filtered out. -/
def authorsOf (ad : JVal) : List JVal :=
  ((toArray (jsOr (jsOpt (jsField ad "AuthorList") "Author") (.arr []))).map authorName).filter
    truthy

def journalOf (ad : JVal) : JVal :=
  jsOr (jsOpt (jsField ad "Journal") "Title") (.str "Unknown journal")

def articleTitleOf (ad : JVal) : JVal :=
  jsOr (jsField ad "ArticleTitle") (.str "No title available")

/-- articleData.Journal?.JournalIssue?.PubDate. -/
def pubDateNode (ad : JVal) : Option JVal :=
  jsOpt (jsOpt (jsField ad "Journal") "JournalIssue") "PubDate"

/-- The year, month, day tokens that survive filter(Boolean), coerced the
way Array.prototype.join coerces them. -/
def pubDateTokens (pd : JVal) : List String :=
  [jsField pd "Year", jsField pd "Month", jsField pd "Day"].filterMap (fun o =>
    match o with
    | some v => if truthy v then some (jsToString v) else none
    | none => none)

/-- The normalized publication date: the fixed placeholder when the PubDate
node is absent or falsy, else the space-joined truthy tokens (possibly the
empty string when no token is truthy). -/
def publicationDateOf (ad : JVal) : String :=
  match pubDateNode ad with
  | some pd => if truthy pd then joinSep " " (pubDateTokens pd) else "Unknown date"
  | none => "Unknown date"

/-- One AbstractText entry rendered to text: a plain string is itself; an
object with truthy inner text and a truthy Label attribute renders as
Label: text; truthy inner text alone renders as the text; otherwise the
value itself is coerced by join.  Accessing the Label of an element that has
inner text but no attribute object raises a TypeError (none). -/
def absTextPiece (t : JVal) : Option String :=
  match t with
  | .str s => some s
  | _ =>
    match jsField t "_" with
    | some u =>
      if truthy u then
        match jsField t "$" with
        | none => none
        | some attrs =>
          match jsField attrs "Label" with
          | some lv =>
            if truthy lv then some (jsToString lv ++ ": " ++ jsToString u)
            else some (jsToString u)
          | none => some (jsToString u)
      else some (jsToString t)
    | none => some (jsToString t)

/-- articleData.Abstract?.AbstractText || [] rendered to the abstract
string: an array joins its pieces with blank lines, a string is itself, any
other value contributes its truthy inner text or nothing. -/
def abstractOf (ad : JVal) : Option String :=
  match jsOr (jsOpt (jsField ad "Abstract") "AbstractText") (.arr []) with
  | .arr ts => (mapOpt absTextPiece ts).map (joinSep "\n\n")
  | .str s => some s
  | other =>
    match jsField other "_" with
    | some u => if truthy u then some (jsToString u) else some ""
    | none => some ""

/-- article.PubmedData?.ArticleIdList?.ArticleId || [], normalized. -/
def articleIdsOf (article : JVal) : List JVal :=
  toArray (jsOr (jsOpt (jsOpt (jsField article "PubmedData") "ArticleIdList") "ArticleId")
    (.arr []))

/-- The DOI / PMC id scan over the typed identifier list.  Reading the
IdType of an entry without an attribute object raises a TypeError (none);
a matching entry stores its possibly-undefined inner text. -/
def idScan : List JVal → Option JVal × Option JVal → Option (Option JVal × Option JVal)
  | [], st => some st
  | id :: rest, st =>
    match jsField id "$" with
    | none => none
    | some attrs =>
      match jsField attrs "IdType" with
      | some (.str s) =>
        if s = "doi" then idScan rest (jsField id "_", st.2)
        else if s = "pmc" then idScan rest (st.1, jsField id "_")
        else idScan rest st
      | _ => idScan rest st

/-! ## getArticleDetails (lines 1289-1394): the per-article mapping and the
fetch wrapper -/

/-- The article mapper inside getArticleDetails.  none models a runtime
TypeError escaping the map and being rethrown as the labeled error. -/
def mkArticle (article : JVal) : Option PubMedArticle := do
  let mc ← jsField article "MedlineCitation"
  let pmid ←
    match jsField mc "PMID" with
    | none => none
    | some pv => some (jsOr (jsField pv "_") pv)
  let ad ← jsField mc "Article"
  let abstract ← abstractOf ad
  let st ← idScan (articleIdsOf article) (some (.str ""), some (.str ""))
  some { pmid, title := articleTitleOf ad, authors := authorsOf ad,
         journal := journalOf ad, publicationDate := publicationDateOf ad,
         abstract, doi := st.1, pmcId := st.2,
         url := "https://pubmed.ncbi.nlm.nih.gov/" ++ jsToString pmid ++ "/" }

/-- getArticleDetails: empty input returns immediately with no fetch; a
non-2xx response or a mapper crash is rethrown as one labeled error (the
text of a runtime TypeError message is abstracted as TypeError). -/
def getArticleDetails (env : Env) (pmids : List String) :
    Except String (List PubMedArticle) × List Ev :=
  if pmids.isEmpty then (.ok [], [])
  else
    let ev : List Ev := [.fetchDetails pmids]
    if env.detailsOk pmids then
      let parsed := env.detailsParsed pmids
      let articles :=
        toArray (jsOr (jsOpt (jsField parsed "PubmedArticleSet") "PubmedArticle") (.arr []))
      match mapOpt mkArticle articles with
      | some arts => (.ok arts, ev)
      | none => (.error "Failed to get article details: TypeError", ev)
    else
      (.error ("Failed to get article details: HTTP error! status: " ++
        toString (env.detailsStatus pmids)), ev)

/-! ## getFullAbstract (lines 1397-1501) -/

/-- The per-article mapping of getFullAbstract, duplicated in the source
from the getArticleDetails mapping with the full abstract field. -/
def mkFullAbstract (article : JVal) : Option FullAbstractResult := do
  let mc ← jsField article "MedlineCitation"
  let pmid ←
    match jsField mc "PMID" with
    | none => none
    | some pv => some (jsOr (jsField pv "_") pv)
  let ad ← jsField mc "Article"
  let fullAbstract ← abstractOf ad
  let st ← idScan (articleIdsOf article) (some (.str ""), some (.str ""))
  some { pmid, title := articleTitleOf ad, authors := authorsOf ad,
         journal := journalOf ad, publicationDate := publicationDateOf ad,
         fullAbstract, doi := st.1, pmcId := st.2 }

def getFullAbstract (env : Env) (pmids : List String) :
    Except String (List FullAbstractResult) × List Ev :=
  if pmids.isEmpty then (.ok [], [])
  else
    let ev : List Ev := [.fetchAbstract pmids]
    if env.abstractOk pmids then
      let parsed := env.abstractParsed pmids
      let articles :=
        toArray (jsOr (jsOpt (jsField parsed "PubmedArticleSet") "PubmedArticle") (.arr []))
      match mapOpt mkFullAbstract articles with
      | some arts => (.ok arts, ev)
      | none => (.error "Failed to get full abstracts: TypeError", ev)
    else
      (.error ("Failed to get full abstracts: HTTP error! status: " ++
        toString (env.abstractStatus pmids)), ev)

/-! ## getArticleSummaries (lines 1233-1286) -/

/-- The itemMap construction loop: skip falsy items, crash on an item with
no attribute object, index truthy Name attributes to the inner text. -/
def buildItemMap : List (Option JVal) → List (String × Option JVal) →
    Option (List (String × Option JVal))
  | [], m => some m
  | o :: rest, m =>
    match o with
    | none => buildItemMap rest m
    | some item =>
      if truthy item then
        match jsField item "$" with
        | none => none
        | some attrs =>
          match jsField attrs "Name" with
          | some nv =>
            if truthy nv then buildItemMap rest (upsertKey m (jsToString nv) (jsField item "_"))
            else buildItemMap rest m
          | none => buildItemMap rest m
      else buildItemMap rest m

/-- itemMap.k || default, where a stored undefined is also falsy. -/
def itemOr (m : List (String × Option JVal)) (k : String) (d : JVal) : JVal :=
  match (m.find? (fun p => p.1 == k)).map (·.2) with
  | some (some v) => if truthy v then v else d
  | _ => d

/-- itemMap.k as a possibly-undefined value. -/
def itemGet (m : List (String × Option JVal)) (k : String) : Option JVal :=
  match (m.find? (fun p => p.1 == k)).map (·.2) with
  | some o => o
  | none => none

/-- The per-DocSum mapping of getArticleSummaries.  Splitting a non-string
AuthorList value raises a TypeError (none). -/
def mkSummary (docSum : JVal) : Option PubMedSummary := do
  let items : List (Option JVal) :=
    match jsField docSum "Item" with
    | some (.arr xs) => xs.map some
    | o => [o]
  let itemMap ← buildItemMap items []
  let authors ←
    match itemOr itemMap "AuthorList" (.str "") with
    | .str s => some (((s.splitOn ",").map jsTrim).filter (· ≠ ""))
    | _ => none
  some { pmid := jsField docSum "Id",
         title := itemOr itemMap "Title" (.str "No title available"),
         authors,
         journal := itemOr itemMap "Source" (.str "Unknown journal"),
         publicationDate := itemOr itemMap "PubDate" (.str "Unknown date"),
         doi := itemGet itemMap "DOI",
         pmcId := itemGet itemMap "PMCID" }

def getArticleSummaries (env : Env) (pmids : List String) :
    Except String (List PubMedSummary) × List Ev :=
  if pmids.isEmpty then (.ok [], [])
  else
    let ev : List Ev := [.fetchSummaries pmids]
    if env.summariesOk pmids then
      let parsed := env.summariesParsed pmids
      let docSums := toArray (jsOr (jsOpt (jsField parsed "eSummaryResult") "DocSum") (.arr []))
      match mapOpt mkSummary docSums with
      | some sums => (.ok sums, ev)
      | none => (.error "Failed to get article summaries: TypeError", ev)
    else
      (.error ("Failed to get article summaries: HTTP error! status: " ++
        toString (env.summariesStatus pmids)), ev)

/-! ## getFullText (lines 1504-1740): per-article reconstruction -/

/-- articleMeta: front?.[0]?.[article-meta]?.[0] || front?.[article-meta]. -/
def ftArticleMeta (article : JVal) : Option JVal :=
  let front := jsField article "front"
  jsOrOpt (((front.bind jsIndex0).bind (fun x => jsField x "article-meta")).bind jsIndex0)
    (front.bind (fun x => jsField x "article-meta"))

/-- Title extraction from the title-group, with the default placeholder and
the inner-text cleanup; an empty title-group array leaves the title
undefined (none). -/
def ftTitle (article : JVal) : Option JVal :=
  let dflt : Option JVal := some (.str "Unknown title")
  match jsOpt (ftArticleMeta article) "title-group" with
  | some tgv =>
    if truthy tgv then
      let articleTitle : Option JVal :=
        match tgv with
        | .arr xs => xs.head?.bind (fun h0 => jsField h0 "article-title")
        | _ => jsField tgv "article-title"
      match articleTitle with
      | some atv =>
        if truthy atv then
          let t0 : Option JVal :=
            match atv with
            | .arr xs => xs.head?
            | v => some v
          match t0 with
          | some tv =>
            match tv with
            | .str _ => some tv
            | _ =>
              match jsField tv "_" with
              | some u => if truthy u then some u else some tv
              | none => some tv
          | none => none
        else dflt
      | none => dflt
    else dflt
  | none => dflt

/-- PMID extraction from the article-id list. -/
def ftPmid (article : JVal) : JVal :=
  match jsOpt (ftArticleMeta article) "article-id" with
  | some aids =>
    if truthy aids then
      match (toArray aids).find? (fun id =>
          match jsOpt (jsField id "$") "pub-id-type" with
          | some (.str s) => s == "pmid"
          | _ => false) with
      | some entry => if truthy entry then jsOr (jsField entry "_") entry else .str ""
      | none => .str ""
    else .str ""
  | none => .str ""

/-- Body processing: run processSections on the body content when the body
is truthy.  Indexing an empty body array yields undefined and the walk then
raises a TypeError, skipping the article (none). -/
def bodyResult (article : JVal) : Option (List Section × String) :=
  match jsField article "body" with
  | some bv =>
    if truthy bv then
      match bv with
      | .arr xs =>
        match xs.head? with
        | some bc => some (processSections bc "Content")
        | none => none
      | _ => some (processSections bv "Content")
    else some ([], "")
  | none => some ([], "")

/-- The per-article tail of getFullText: body walk, whole-article fallback
when the walk found nothing, and the final push guarded on any content
being present.  none covers both the skipped article (TypeError) and the
no-extractable-content case, which both continue without a result. -/
def getFullTextOne (article : JVal) (cleanPmcId : String) : Option FullTextResult :=
  match bodyResult article with
  | none => none
  | some sb =>
    let pair :=
      if sb.1.length = 0 ∧ jsTrim sb.2 = "" then
        let allText := fallbackExtractText article
        if jsTrim allText ≠ "" then
          (([⟨"Full Article Content", jsTrim allText⟩] : List Section), jsTrim allText)
        else sb
      else sb
    if jsTrim pair.2 ≠ "" ∨ pair.1 ≠ [] then
      some { pmid := ftPmid article, pmcId := "PMC" ++ cleanPmcId, title := ftTitle article,
             fullText := jsTrim pair.2, sections := pair.1 }
    else none

/-- One loop iteration of getFullText: strip the PMC prefix, fetch, check
the error markers, select the first article, run the per-article tail.
Every failure path warns and continues (no result).  A non-string id makes
the prefix strip itself throw before any fetch, caught by the same
per-iteration handler. -/
def getFullTextItem (env : Env) (v : JVal) : Option FullTextResult × List Ev :=
  match v with
  | .str pmcId =>
    let cleanPmcId := if pmcId.startsWith "PMC" then pmcId.drop 3 else pmcId
    let ev : List Ev := [.fetchFullText cleanPmcId]
    if env.ftOk cleanPmcId then
      if env.ftRawErr cleanPmcId then (none, ev)
      else
        let parsed := env.ftParsed cleanPmcId
        match jsField parsed "pmc-articleset" with
        | none => (none, ev)
        | some aset =>
          if truthy aset then
            match jsField aset "article" with
            | none => (none, ev)
            | some av =>
              if truthy av then
                let articleOpt : Option JVal :=
                  match av with
                  | .arr xs => xs.head?
                  | w => some w
                match articleOpt with
                | some article => (getFullTextOne article cleanPmcId, ev)
                | none => (none, ev)
              else (none, ev)
          else (none, ev)
    else (none, ev)
  | _ => (none, [])

def getFullText (env : Env) : List JVal → List FullTextResult × List Ev
  | [] => ([], [])
  | v :: rest =>
    let (r1, t1) := getFullTextItem env v
    let (rs, tr) := getFullText env rest
    ((match r1 with
      | some r => r :: rs
      | none => rs), t1 ++ tr)

/-! ## getCitationCounts (lines 1835-1923) -/

/-- One loop iteration: title prefetch through getArticleDetails (whose
raised errors are caught into a per-item error result), the elink fetch
(non-2xx becomes a per-item error result), the linkset scan, the fixed
100-item cap, and a pacing sleep only on the success path.  This function
never raises. -/
def getCitationCountOne (env : Env) (pmid : String) : CitationCountResult × List Ev :=
  match getArticleDetails env [pmid] with
  | (.error msg, tr) =>
    ({ pmid, title := .str "Unknown title", citationCount := 0, citingPmids := [],
       error := some ("Failed to get citation count: " ++ msg) }, tr)
  | (.ok arts, tr) =>
    let title :=
      match arts with
      | a :: _ => a.title
      | [] => .str "Unknown title"
    let ev := tr ++ [Ev.fetchElink pmid]
    if env.elinkOk pmid then
      let parsed := env.elinkParsed pmid
      let linkSetArray := toArray (jsOr (jsOpt (jsField parsed "eLinkResult") "LinkSet") (.arr []))
      let citingPmids := linkSetArray.foldl (fun acc linkSet =>
        match lookupTruthy linkSet "LinkSetDb" with
        | some dbv =>
          match (toArray dbv).find? (fun db =>
              match jsField db "LinkName" with
              | some (.str s) => s == "pubmed_pubmed_citedin"
              | _ => false) with
          | some db =>
            ((toArray (jsOr (jsField db "Link") (.arr []))).map (fun link =>
              jsField link "Id")).filterMap (fun o =>
                match o with
                | some w => if truthy w then some w else none
                | none => none)
          | none => acc
        | none => acc) []
      ({ pmid, title, citationCount := citingPmids.length,
         citingPmids := citingPmids.take 100, error := none }, ev ++ [Ev.sleep 200])
    else
      ({ pmid, title, citationCount := 0, citingPmids := [],
         error := some ("HTTP error! status: " ++ toString (env.elinkStatus pmid)) }, ev)

def getCitationCounts (env : Env) : List String → List CitationCountResult × List Ev
  | [] => ([], [])
  | p :: rest =>
    let (r, tr) := getCitationCountOne env p
    let (rs, trs) := getCitationCounts env rest
    (r :: rs, tr ++ trs)

/-! ## batchProcess (lines 2328-2495) -/

inductive OpStatus where
  | pending
  | processing
  | completed
  | error
deriving Repr, DecidableEq

/-- One (identifier, operation-kind) pair with its status.  The result
field of the source interface is never assigned anywhere and is omitted. -/
structure BatchOperation where
  pmid : String
  operation : String
  status : OpStatus
  error : Option String
deriving Repr, DecidableEq

structure BatchSummary where
  total : Nat
  completed : Nat
  failed : Nat
  processing : Nat
deriving Repr, DecidableEq

structure BatchResults where
  abstracts : Option (List FullAbstractResult) := none
  citations : Option (List CitationCountResult) := none
  similar : Option (List (String × List SimilarArticleResult)) := none
  risExports : Option String := none
  fullTexts : Option (List FullTextResult) := none
deriving Repr

structure BatchProcessingResult where
  taskId : String
  operations : List BatchOperation
  summary : BatchSummary
  results : BatchResults
deriving Repr

/-- The initial operation list: one pending entry per pmid and requested
kind, pmids outermost, mirroring the nested initialization loops. -/
def initOps (pmids operations : List String) : List BatchOperation :=
  (pmids.map (fun p => operations.map (fun k =>
    ({ pmid := p, operation := k, status := .pending, error := none } : BatchOperation)))).flatten

/-- The identifier list accumulated for one kind by the grouping loops: each
pmid once per occurrence of the kind in the request. -/
def kindIds (pmids operations : List String) (k : String) : List String :=
  (pmids.map (fun p => (operations.filter (fun o => o == k)).map (fun _ => p))).flatten

/-- The distinct kinds in first-occurrence order, i.e. the key order of the
grouping object. -/
def dedupKinds : List String → List String → List String
  | [], _ => []
  | x :: xs, seen => if x ∈ seen then dedupKinds xs seen else x :: dedupKinds xs (x :: seen)

/-- The abstract kind: chunks of 20 through getFullAbstract, a 300 ms sleep
between chunks, a raised error aborting the loop while keeping the results
already pushed. -/
def abstractChunks (env : Env) : List String → Option String × List FullAbstractResult × List Ev
  | [] => (none, [], [])
  | a :: rest0 =>
    let l := a :: rest0
    let chunk := l.take 20
    let rest := l.drop 20
    match getFullAbstract env chunk with
    | (.error e, tr) => (some e, [], tr)
    | (.ok rs, tr) =>
      if rest.isEmpty then (none, rs, tr)
      else
        let (o, rs2, tr2) := abstractChunks env rest
        (o, rs ++ rs2, tr ++ [Ev.sleep 300] ++ tr2)
termination_by l => l.length
decreasing_by
  simp only [List.length_drop, List.length_cons]
  omega

/-- The citations kind: chunks of 10 through getCitationCounts (which never
raises), a 400 ms sleep between chunks. -/
def citationChunks (env : Env) : List String → List CitationCountResult × List Ev
  | [] => ([], [])
  | a :: rest0 =>
    let l := a :: rest0
    let chunk := l.take 10
    let rest := l.drop 10
    let (rs, tr) := getCitationCounts env chunk
    if rest.isEmpty then (rs, tr)
    else
      let (rs2, tr2) := citationChunks env rest
      (rs ++ rs2, tr ++ [Ev.sleep 400] ++ tr2)
termination_by l => l.length
decreasing_by
  simp only [List.length_drop, List.length_cons]
  omega

/-- The similar kind: one findSimilarArticles call per pmid at its boundary,
a 300 ms sleep after each success, a raised error caught into an empty
entry with no sleep. -/
def similarLoop (env : Env) : List String → List (String × List SimilarArticleResult) →
    List (String × List SimilarArticleResult) × List Ev
  | [], m => (m, [])
  | p :: rest, m =>
    match env.similarResult p with
    | .ok lst =>
      let (mf, tr) := similarLoop env rest (upsertKey m p lst)
      (mf, [Ev.fetchSimilar p, Ev.sleep 300] ++ tr)
    | .error _ =>
      let (mf, tr) := similarLoop env rest (upsertKey m p [])
      (mf, [Ev.fetchSimilar p] ++ tr)

/-- The ris kind: chunks of 50 through exportRIS at its boundary (total),
truthy risData collected, a 500 ms sleep between chunks. -/
def risChunks (env : Env) : List String → List String × List Ev
  | [] => ([], [])
  | a :: rest0 =>
    let l := a :: rest0
    let chunk := l.take 50
    let rest := l.drop 50
    let r := env.risResult chunk
    let push : List String := if r.risData ≠ "" then [r.risData] else []
    if rest.isEmpty then (push, [Ev.fetchRis chunk])
    else
      let (ps, tr) := risChunks env rest
      (push ++ ps, [Ev.fetchRis chunk, Ev.sleep 500] ++ tr)
termination_by l => l.length
decreasing_by
  simp only [List.length_drop, List.length_cons]
  omega

/-- The full-text chunk loop: chunks of 10 through getFullText (total), a
600 ms sleep between chunks. -/
def fullTextChunks (env : Env) : List JVal → List FullTextResult × List Ev
  | [] => ([], [])
  | a :: rest0 =>
    let l := a :: rest0
    let chunk := l.take 10
    let rest := l.drop 10
    let (fts, tr) := getFullText env chunk
    if rest.isEmpty then (fts, tr)
    else
      let (fts2, tr2) := fullTextChunks env rest
      (fts ++ fts2, tr ++ [Ev.sleep 600] ++ tr2)
termination_by l => l.length
decreasing_by
  simp only [List.length_drop, List.length_cons]
  omega

/-- One switch arm of the per-kind loop: the outcome (none for completed,
some message for the caught error), the updated result buckets, the trace.
An unknown kind matches no case and completes with no effect. -/
def runKind (env : Env) (pmids operations : List String) (k : String) (res : BatchResults) :
    Option String × BatchResults × List Ev :=
  let ids := kindIds pmids operations k
  if k = "abstract" then
    let (o, col, tr) := abstractChunks env ids
    (o, { res with abstracts := some col }, tr)
  else if k = "citations" then
    let (col, tr) := citationChunks env ids
    (none, { res with citations := some col }, tr)
  else if k = "similar" then
    let (m, tr) := similarLoop env ids []
    (none, { res with similar := some m }, tr)
  else if k = "ris_export" then
    let (chunks, tr) := risChunks env ids
    (none, { res with risExports := some (joinSep "\n\n" chunks) }, tr)
  else if k = "full_text" then
    match getArticleDetails env ids with
    | (.error e, tr) => (some e, { res with fullTexts := some [] }, tr)
    | (.ok arts, tr) =>
      let pmcVals := arts.filterMap (fun a =>
        match a.pmcId with
        | some w => if truthy w then some w else none
        | none => none)
      if pmcVals.isEmpty then (none, { res with fullTexts := some [] }, tr)
      else
        let (fts, tr2) := fullTextChunks env pmcVals
        (none, { res with fullTexts := some fts }, tr ++ tr2)
  else (none, res, [])

/-- The sequential loop over the kind groups, recording each outcome. -/
def runKinds (env : Env) (pmids operations : List String) :
    List String → BatchResults → List (String × Option String) × BatchResults × List Ev
  | [], res => ([], res, [])
  | k :: ks, res =>
    let (o, r1, t1) := runKind env pmids operations k res
    let (os, r2, t2) := runKinds env pmids operations ks r1
    ((k, o) :: os, r2, t1 ++ t2)

/-- The final status of one entry: its kind group completed or errored with
one shared message; an unprocessed kind (impossible when the entry exists)
stays as is. -/
def applyOutcome (outcomes : List (String × Option String)) (op : BatchOperation) :
    BatchOperation :=
  match (outcomes.find? (fun p => p.1 == op.operation)).map (·.2) with
  | some none => { op with status := .completed }
  | some (some m) => { op with status := .error, error := some m }
  | none => op

/-- batchProcess: initialize the operation list, group by kind, run the kind
groups sequentially, then compute the summary by scanning final statuses.
The maxConcurrency parameter of the source is never read and is omitted. -/
def batchProcess (env : Env) (pmids operations : List String) :
    BatchProcessingResult × List Ev :=
  let ops0 := initOps pmids operations
  let kinds := if pmids.isEmpty then [] else dedupKinds operations []
  let (outcomes, res, tr) := runKinds env pmids operations kinds {}
  let opsF := ops0.map (applyOutcome outcomes)
  let summary : BatchSummary :=
    { total := opsF.length,
      completed := (opsF.filter (fun op => op.status == .completed)).length,
      failed := (opsF.filter (fun op => op.status == .error)).length,
      processing := (opsF.filter (fun op => op.status == .processing)).length }
  ({ taskId := "batch_" ++ toString env.now, operations := opsF, summary, results := res }, tr)

/-! ## String and trim lemmas -/

theorem sdata_append (a b : String) : (a ++ b).data = a.data ++ b.data := rfl

theorem sdata_empty : ("" : String).data = [] := rfl

theorem str_eq_of_data {a b : String} (h : a.data = b.data) : a = b := String.ext h

theorem str_ne_empty_iff {s : String} : s ≠ "" ↔ s.data ≠ [] := by
  constructor
  · intro h hd
    exact h (str_eq_of_data (by simp [hd, sdata_empty]))
  · intro h hd
    exact h (by simp [hd, sdata_empty])

theorem sappend_empty (s : String) : s ++ "" = s :=
  str_eq_of_data (by simp [sdata_append, sdata_empty])

theorem sempty_append (s : String) : "" ++ s = s :=
  str_eq_of_data (by simp [sdata_append, sdata_empty])

theorem sappend_assoc (a b c : String) : a ++ b ++ c = a ++ (b ++ c) :=
  str_eq_of_data (by simp [sdata_append, List.append_assoc])

/-- Head of a list unchanged by dropWhile is rejected by the predicate. -/
theorem dw_head_false {p : α → Bool} {c : α} {t : List α}
    (h : (c :: t).dropWhile p = c :: t) : p c = false := by
  by_contra hc
  rw [List.dropWhile_cons_of_pos (by revert hc; cases p c <;> simp)] at h
  have := (List.dropWhile_sublist (l := t) p).length_le
  rw [h] at this
  simp at this

theorem dw_append_left {p : α → Bool} {a : List α} (b : List α)
    (ha : a.dropWhile p = a) (hne : a ≠ []) : (a ++ b).dropWhile p = a ++ b := by
  cases a with
  | nil => exact absurd rfl hne
  | cons c t =>
    have hc := dw_head_false ha
    simp [List.dropWhile_cons, hc]

theorem tL_append_left {a : List Char} (b : List Char)
    (ha : trimLeftL a = a) (hne : a ≠ []) : trimLeftL (a ++ b) = a ++ b :=
  dw_append_left b ha hne

theorem trimRightL_reverse (l : List Char) :
    trimRightL l = (l.reverse.dropWhile wsChar).reverse := rfl

theorem tR_append_right {b : List Char} (a : List Char)
    (hb : trimRightL b = b) (hne : b ≠ []) : trimRightL (a ++ b) = a ++ b := by
  have hb' : b.reverse.dropWhile wsChar = b.reverse := by
    have := congrArg List.reverse hb
    simpa [trimRightL_reverse] using this
  have hbr : b.reverse ≠ [] := by simpa using hne
  rw [trimRightL_reverse, List.reverse_append, dw_append_left _ hb' hbr]
  simp

theorem tR_append_ws {b : List Char} (a : List Char)
    (hb : ∀ c ∈ b, wsChar c = true) : trimRightL (a ++ b) = trimRightL a := by
  rw [trimRightL_reverse, List.reverse_append,
    List.dropWhile_append_of_pos (by intro x hx; exact hb x (by simpa using hx))]
  rfl

theorem tR_append_keep {b : List Char} (a : List Char)
    (hb : trimRightL b ≠ []) : trimRightL (a ++ b) = a ++ trimRightL b := by
  have hbne : ¬ (b.reverse.dropWhile wsChar).isEmpty := by
    intro hc
    exact hb (by
      rw [trimRightL_reverse]
      simp only [List.isEmpty_iff] at hc
      simp [hc])
  rw [trimRightL_reverse, List.reverse_append, List.dropWhile_append, if_neg hbne]
  simp [trimRightL_reverse]

theorem tL_idem (l : List Char) : trimLeftL (trimLeftL l) = trimLeftL l :=
  List.dropWhile_idempotent wsChar l

theorem tR_idem (l : List Char) : trimRightL (trimRightL l) = trimRightL l := by
  have := List.rdropWhile_idempotent wsChar l
  simpa [List.rdropWhile, trimRightL_reverse] using this

/-- Left trim is preserved by right trim. -/
theorem tL_of_tR {l : List Char} (h : trimLeftL l = l) :
    trimLeftL (trimRightL l) = trimRightL l := by
  have hpre : trimRightL l <+: l := by
    have := List.rdropWhile_prefix wsChar l
    simpa [List.rdropWhile, trimRightL_reverse] using this
  obtain ⟨t, ht⟩ := hpre
  cases hr : trimRightL l with
  | nil => rfl
  | cons c u =>
    rw [hr] at ht
    have hl : l = c :: (u ++ t) := by rw [← ht]; simp
    have hc : wsChar c = false := dw_head_false (by rw [← hl]; exact h)
    exact List.dropWhile_cons_of_neg (by simp [hc])

/-- Right trim is preserved by left trim. -/
theorem tR_of_tL {l : List Char} (h : trimRightL l = l) :
    trimRightL (trimLeftL l) = trimLeftL l := by
  simp only [trimLeftL]
  have h' : l.reverse.dropWhile wsChar = l.reverse := by
    have := congrArg List.reverse h
    simpa [trimRightL_reverse] using this
  obtain ⟨t, ht⟩ := (List.dropWhile_suffix wsChar : l.dropWhile wsChar <:+ l)
  cases ha : (l.dropWhile wsChar).reverse with
  | nil =>
    have hz : l.dropWhile wsChar = [] := by simpa using congrArg List.reverse ha
    rw [hz]; rfl
  | cons c u =>
    have hlrev : l.reverse = c :: (u ++ t.reverse) := by
      rw [← ht, List.reverse_append, ha]; simp
    have hc : wsChar c = false := dw_head_false (by rw [← hlrev]; exact h')
    rw [trimRightL_reverse, ha, List.dropWhile_cons_of_neg (by simp [hc])]
    have := congrArg List.reverse ha
    simpa using this.symm

/-! ## Fully trimmed strings -/

/-- A character list with no leading and no trailing whitespace, non-empty. -/
def goodL (l : List Char) : Prop := trimLeftL l = l ∧ trimRightL l = l ∧ l ≠ []

/-- A non-empty string that its own trim leaves unchanged. -/
def goodS (s : String) : Prop := goodL s.data

theorem jsTrim_data (s : String) : (jsTrim s).data = trimRightL (trimLeftL s.data) := rfl

theorem jsTrim_empty : jsTrim "" = "" := rfl

/-- A non-empty trim result is fully trimmed. -/
theorem goodS_jsTrim {s : String} (h : jsTrim s ≠ "") : goodS (jsTrim s) := by
  refine ⟨?_, ?_, str_ne_empty_iff.mp h⟩
  · rw [jsTrim_data]
    exact tL_of_tR (tL_idem s.data)
  · rw [jsTrim_data]
    have := tR_idem (trimLeftL s.data)
    exact this

theorem jsTrim_of_goodS {s : String} (h : goodS s) : jsTrim s = s := by
  obtain ⟨h1, h2, _⟩ := h
  exact str_eq_of_data (by rw [jsTrim_data, h1, h2])

/-- Trimming a fully trimmed string padded on the right with whitespace
recovers the string. -/
theorem jsTrim_good_pad {d pad : String} (hd : goodS d)
    (hp : ∀ c ∈ pad.data, wsChar c = true) : jsTrim (d ++ pad) = d := by
  obtain ⟨h1, h2, hne⟩ := hd
  apply str_eq_of_data
  rw [jsTrim_data, sdata_append, tL_append_left _ h1 hne, tR_append_ws _ hp, h2]

theorem ws_nn : ∀ c ∈ ("\n\n" : String).data, wsChar c = true := by decide

theorem ws_nnn : ∀ c ∈ ("\n\n\n" : String).data, wsChar c = true := by decide

/-- Appending a fully trimmed string on the right of whitespace-padded
fully trimmed text stays fully trimmed. -/
theorem goodS_append_pad_append {e d : String} (pad : String) (he : goodS e) (hd : goodS d) :
    goodS (e ++ pad ++ d) := by
  obtain ⟨he1, he2, hene⟩ := he
  obtain ⟨hd1, hd2, hdne⟩ := hd
  refine ⟨?_, ?_, ?_⟩
  · rw [sdata_append, sdata_append, List.append_assoc]
    have := tL_append_left (pad.data ++ d.data) he1 hene
    rw [this]
  · rw [sdata_append]
    exact tR_append_right _ hd2 hdne
  · rw [sdata_append, sdata_append, List.append_assoc]
    simp [hene]

/-! ## The paragraph-accumulator invariant -/

/-- Shape of the raw paragraph buffer: empty, or its own trim followed by
one blank-line separator, the trim being fully trimmed. -/
def paraInv (c : String) : Prop :=
  c = "" ∨ (goodS (jsTrim c) ∧ c = jsTrim c ++ "\n\n")

theorem paraInv_step {acc : String} (u : String) (h : paraInv acc) :
    paraInv (if jsTrim u ≠ "" then acc ++ jsTrim u ++ "\n\n" else acc) := by
  by_cases hu : jsTrim u = ""
  · simp [hu, h]
  · have hdg : goodS (jsTrim u) := goodS_jsTrim hu
    rw [if_pos hu]
    rcases h with h | ⟨hg, he⟩
    · subst h
      right
      rw [sempty_append]
      constructor
      · rw [jsTrim_good_pad hdg ws_nn]
        exact hdg
      · rw [jsTrim_good_pad hdg ws_nn]
    · right
      have hshape : acc ++ jsTrim u ++ "\n\n" = (jsTrim acc ++ "\n\n" ++ jsTrim u) ++ "\n\n" := by
        rw [← he]
      have hgood2 : goodS (jsTrim acc ++ "\n\n" ++ jsTrim u) :=
        goodS_append_pad_append "\n\n" hg hdg
      rw [hshape, jsTrim_good_pad hgood2 ws_nn]
      exact ⟨hgood2, rfl⟩

theorem collectParas_inv (ps : List JVal) : paraInv (collectParas ps) := by
  suffices hgen : ∀ acc, paraInv acc → paraInv (ps.foldl (fun acc p =>
      let t := jsTrim (extractText p)
      if t ≠ "" then acc ++ t ++ "\n\n" else acc) acc) by
    exact hgen "" (Or.inl rfl)
  induction ps with
  | nil => intro acc h; exact h
  | cons p rest ih =>
    intro acc h
    exact ih _ (paraInv_step (extractText p) h)

/-! ## The section-buffer invariant of processSections -/

/-- The full-text chunk contributed by one pushed Section. -/
def chunkOf (sec : Section) : String := sec.title ++ "\n" ++ sec.content ++ "\n\n\n"

def strConcat : List String → String
  | [] => ""
  | x :: xs => x ++ strConcat xs

theorem strConcat_append (xs ys : List String) :
    strConcat (xs ++ ys) = strConcat xs ++ strConcat ys := by
  induction xs with
  | nil => simp [strConcat, sempty_append]
  | cons x xs ih => simp [strConcat, ih, sappend_assoc]

def goodSec (sec : Section) : Prop := goodS sec.title ∧ goodS sec.content

/-- The two-part output invariant: the text buffer is the concatenation of
the chunks of the pushed sections, all of whose fields are fully trimmed. -/
def outInv (out : List Section × String) : Prop :=
  out.2 = strConcat (out.1.map chunkOf) ∧ ∀ sec ∈ out.1, goodSec sec

theorem outInv_nil : outInv (([] : List Section), "") := by
  refine ⟨rfl, by simp⟩

theorem outInv_append {a b : List Section × String} (ha : outInv a) (hb : outInv b) :
    outInv (a.1 ++ b.1, a.2 ++ b.2) := by
  obtain ⟨ha1, ha2⟩ := ha
  obtain ⟨hb1, hb2⟩ := hb
  constructor
  · rw [ha1, hb1, List.map_append, strConcat_append]
  · intro sec hsec
    rcases List.mem_append.mp hsec with h | h
    · exact ha2 sec h
    · exact hb2 sec h

theorem pushSec_inv {t : String} (c : String) (ht : goodS t) (hc : paraInv c) :
    outInv (pushSec t c) := by
  unfold pushSec
  by_cases h : jsTrim c = ""
  · simp only [h]
    simp [outInv_nil]
  · rw [if_pos h]
    rcases hc with hc | ⟨hg, he⟩
    · exact absurd (by rw [hc, jsTrim_empty]) h
    · constructor
      · show t ++ "\n" ++ c ++ "\n" = strConcat [chunkOf ⟨t, jsTrim c⟩]
        show t ++ "\n" ++ c ++ "\n" = chunkOf ⟨t, jsTrim c⟩ ++ strConcat []
        rw [show strConcat [] = "" from rfl, sappend_empty]
        unfold chunkOf
        rw [show (⟨t, jsTrim c⟩ : Section).title = t from rfl,
          show (⟨t, jsTrim c⟩ : Section).content = jsTrim c from rfl]
        conv_lhs => rw [he]
        apply str_eq_of_data
        simp [sdata_append, List.append_assoc]
      · intro sec hsec
        rw [List.mem_singleton] at hsec
        subst hsec
        exact ⟨ht, goodS_jsTrim h⟩

theorem resolveTitle_good (s : JVal) {t : String} (ht : goodS t) :
    goodS (resolveTitle s t) := by
  unfold resolveTitle
  cases lookupTruthy s "title" with
  | none => exact ht
  | some tv =>
    simp only
    by_cases h : jsTrim (extractText tv) = ""
    · simp [h, ht]
    · have := goodS_jsTrim h
      simpa [h] using this

theorem secContentOf_inv (s : JVal) : paraInv (secContentOf s) := by
  unfold secContentOf
  cases lookupTruthy s "p" with
  | none => exact Or.inl rfl
  | some pv => exact collectParas_inv _

mutual
theorem processSections_inv (e : JVal) (t : String) (ht : goodS t) :
    outInv (processSections e t) := by
  simp only [processSections]
  apply outInv_append
  · split
    next v hv => exact processSecList_inv (toArray v) t ht
    next => exact outInv_nil
  · unfold pPartOf
    split
    next pv _ => exact pushSec_inv _ ht (collectParas_inv _)
    next => exact outInv_nil
termination_by 2 * e.sz
decreasing_by
  rename_i v ha hb heq
  have h1 := sz_lookupTruthy heq
  have h2 := szL_toArray v
  omega

theorem processSecList_inv (secs : List JVal) (t : String) (ht : goodS t) :
    outInv (processSecList secs t) := by
  match secs with
  | [] =>
    simp only [processSecList]
    exact outInv_nil
  | s :: rest =>
    simp only [processSecList]
    apply outInv_append
    · split
      next => exact processSections_inv s (resolveTitle s t) (resolveTitle_good s ht)
      next => exact pushSec_inv _ (resolveTitle_good s ht) (secContentOf_inv s)
    · exact processSecList_inv rest t ht
termination_by 2 * szL secs + 1
decreasing_by
  all_goals simp only [szL]
  all_goals omega
end

/-! ## From the buffer invariant to the trimmed full text -/

/-- The title-newline-content rendering of one Section. -/
def headOf (sec : Section) : String := sec.title ++ "\n" ++ sec.content

theorem chunkOf_eq (sec : Section) : chunkOf sec = headOf sec ++ "\n\n\n" := by
  unfold chunkOf headOf
  apply str_eq_of_data
  simp [sdata_append, List.append_assoc]

theorem goodS_headOf {sec : Section} (h : goodSec sec) : goodS (headOf sec) := by
  obtain ⟨⟨ht1, ht2, htne⟩, ⟨hc1, hc2, hcne⟩⟩ := h
  refine ⟨?_, ?_, ?_⟩
  · show trimLeftL (headOf sec).data = (headOf sec).data
    unfold headOf
    rw [sdata_append, sdata_append, List.append_assoc]
    exact tL_append_left _ ht1 htne
  · show trimRightL (headOf sec).data = (headOf sec).data
    unfold headOf
    rw [sdata_append]
    exact tR_append_right _ hc2 hcne
  · show (headOf sec).data ≠ []
    unfold headOf
    rw [sdata_append, sdata_append, List.append_assoc]
    simp [htne]

theorem headOf_ne {sec : Section} (h : goodSec sec) : headOf sec ≠ "" := by
  rw [str_ne_empty_iff]
  exact (goodS_headOf h).2.2

theorem joinSep_headOf_ne {secs : List Section} (hne : secs ≠ [])
    (h : ∀ sec ∈ secs, goodSec sec) : joinSep "\n\n\n" (secs.map headOf) ≠ "" := by
  cases secs with
  | nil => exact absurd rfl hne
  | cons s rest =>
    have hs : goodSec s := h s (by simp)
    have htne : s.title.data ≠ [] := hs.1.2.2
    cases rest with
    | nil =>
      show headOf s ≠ ""
      exact headOf_ne hs
    | cons s2 rest2 =>
      show headOf s ++ "\n\n\n" ++ joinSep "\n\n\n" ((s2 :: rest2).map headOf) ≠ ""
      rw [str_ne_empty_iff, sdata_append, sdata_append]
      unfold headOf
      rw [sdata_append, sdata_append, List.append_assoc, List.append_assoc, List.append_assoc]
      simp [htne]

/-- The chunk concatenation of a non-empty good section list has no leading
whitespace. -/
theorem tL_chunks {secs : List Section} (hne : secs ≠ [])
    (h : ∀ sec ∈ secs, goodSec sec) :
    trimLeftL (strConcat (secs.map chunkOf)).data = (strConcat (secs.map chunkOf)).data := by
  cases secs with
  | nil => exact absurd rfl hne
  | cons s rest =>
    have hs : goodSec s := h s (by simp)
    have hsh := goodS_headOf hs
    have hdata : (strConcat ((s :: rest).map chunkOf)).data =
        (headOf s).data ++ ("\n\n\n".data ++ (strConcat (rest.map chunkOf)).data) := by
      show (chunkOf s ++ strConcat (rest.map chunkOf)).data = _
      rw [sdata_append, chunkOf_eq, sdata_append, List.append_assoc]
    rw [hdata]
    exact tL_append_left _ hsh.1 hsh.2.2

theorem jsTrim_chunks (secs : List Section) (h : ∀ sec ∈ secs, goodSec sec) :
    jsTrim (strConcat (secs.map chunkOf)) = joinSep "\n\n\n" (secs.map headOf) := by
  induction secs with
  | nil => rfl
  | cons s rest ih =>
    have hs : goodSec s := h s (by simp)
    have hrest : ∀ sec ∈ rest, goodSec sec := fun sec hm => h sec (by simp [hm])
    cases rest with
    | nil =>
      show jsTrim (chunkOf s ++ strConcat []) = headOf s
      rw [show strConcat ([] : List String) = "" from rfl, sappend_empty, chunkOf_eq]
      exact jsTrim_good_pad (goodS_headOf hs) ws_nnn
    | cons s2 rest2 =>
      have hRne : (s2 :: rest2 : List Section) ≠ [] := by simp
      have hJ := ih hrest
      have hJne : joinSep "\n\n\n" ((s2 :: rest2).map headOf) ≠ "" :=
        joinSep_headOf_ne hRne hrest
      have hRtl := tL_chunks hRne hrest
      have hRdata : trimRightL (strConcat ((s2 :: rest2).map chunkOf)).data =
          (joinSep "\n\n\n" ((s2 :: rest2).map headOf)).data := by
        have hd := congrArg String.data hJ
        rw [jsTrim_data, hRtl] at hd
        exact hd
      have hRne2 : trimRightL (strConcat ((s2 :: rest2).map chunkOf)).data ≠ [] := by
        rw [hRdata]
        exact str_ne_empty_iff.mp hJne
      show jsTrim (chunkOf s ++ strConcat ((s2 :: rest2).map chunkOf)) =
        headOf s ++ "\n\n\n" ++ joinSep "\n\n\n" ((s2 :: rest2).map headOf)
      apply str_eq_of_data
      rw [jsTrim_data, sdata_append]
      have hin : trimLeftL ((chunkOf s).data ++ (strConcat ((s2 :: rest2).map chunkOf)).data) =
          (chunkOf s).data ++ (strConcat ((s2 :: rest2).map chunkOf)).data := by
        rw [chunkOf_eq, sdata_append, List.append_assoc]
        have hh := goodS_headOf hs
        exact tL_append_left _ hh.1 hh.2.2
      rw [hin, tR_append_keep _ hRne2, hRdata, sdata_append, sdata_append, chunkOf_eq,
        sdata_append, List.append_assoc]

/-! ## Decidable equality of parsed values -/

mutual
def decEqJ : (a b : JVal) → Decidable (a = b)
  | .str a, .str b =>
    match String.decEq a b with
    | isTrue h => isTrue (by rw [h])
    | isFalse h => isFalse (fun hc => by cases hc; exact h rfl)
  | .str _, .arr _ => isFalse (fun h => JVal.noConfusion h)
  | .str _, .obj _ => isFalse (fun h => JVal.noConfusion h)
  | .arr _, .str _ => isFalse (fun h => JVal.noConfusion h)
  | .arr a, .arr b =>
    match decEqJL a b with
    | isTrue h => isTrue (by rw [h])
    | isFalse h => isFalse (fun hc => by cases hc; exact h rfl)
  | .arr _, .obj _ => isFalse (fun h => JVal.noConfusion h)
  | .obj _, .str _ => isFalse (fun h => JVal.noConfusion h)
  | .obj _, .arr _ => isFalse (fun h => JVal.noConfusion h)
  | .obj a, .obj b =>
    match decEqJF a b with
    | isTrue h => isTrue (by rw [h])
    | isFalse h => isFalse (fun hc => by cases hc; exact h rfl)

def decEqJL : (a b : List JVal) → Decidable (a = b)
  | [], [] => isTrue rfl
  | [], _ :: _ => isFalse (fun h => List.noConfusion h)
  | _ :: _, [] => isFalse (fun h => List.noConfusion h)
  | a :: arest, b :: brest =>
    match decEqJ a b with
    | isFalse h1 => isFalse (fun hc => by cases hc; exact h1 rfl)
    | isTrue h1 =>
      match decEqJL arest brest with
      | isTrue h2 => isTrue (by rw [h1, h2])
      | isFalse h2 => isFalse (fun hc => by cases hc; exact h2 rfl)

def decEqJF : (a b : List (String × JVal)) → Decidable (a = b)
  | [], [] => isTrue rfl
  | [], _ :: _ => isFalse (fun h => List.noConfusion h)
  | _ :: _, [] => isFalse (fun h => List.noConfusion h)
  | (k1, v1) :: arest, (k2, v2) :: brest =>
    match String.decEq k1 k2 with
    | isFalse h1 => isFalse (fun hc => by cases hc; exact h1 rfl)
    | isTrue h1 =>
      match decEqJ v1 v2 with
      | isFalse h2 => isFalse (fun hc => by cases hc; exact h2 rfl)
      | isTrue h2 =>
        match decEqJF arest brest with
        | isTrue h3 => isTrue (by rw [h1, h2, h3])
        | isFalse h3 => isFalse (fun hc => by cases hc; exact h3 rfl)
end

instance : DecidableEq JVal := decEqJ

deriving instance DecidableEq for FullTextResult
deriving instance DecidableEq for PubMedArticle
deriving instance DecidableEq for PubMedSummary
deriving instance DecidableEq for FullAbstractResult
deriving instance DecidableEq for CitationCountResult

/-! ## Unfolding lemmas for processSections -/

theorem processSections_some {e : JVal} (t : String) {v : JVal}
    (hsec : lookupTruthy e "sec" = some v) :
    processSections e t =
      ((processSecList (toArray v) t).1 ++ (pPartOf e t).1,
       (processSecList (toArray v) t).2 ++ (pPartOf e t).2) := by
  simp only [processSections]
  split
  next w hw =>
    rw [hsec] at hw
    cases hw
    rfl
  next hw =>
    rw [hsec] at hw
    cases hw

theorem processSections_none {e : JVal} (t : String)
    (hsec : lookupTruthy e "sec" = none) :
    processSections e t = ((pPartOf e t).1, (pPartOf e t).2) := by
  simp only [processSections]
  split
  next w hw =>
    rw [hsec] at hw
    cases hw
  next hw =>
    simp

/-! ## Claim C1 -/

theorem goodS_Content : goodS "Content" := ⟨by decide, by decide, by decide⟩

/-- The body walk output always satisfies the buffer invariant. -/
theorem bodyResult_inv {article : JVal} {secs : List Section} {buf : String}
    (hb : bodyResult article = some (secs, buf)) : outInv (secs, buf) := by
  unfold bodyResult at hb
  split at hb
  next bv hbv =>
    split at hb
    next =>
      split at hb
      next xs =>
        split at hb
        next bc hbc =>
          injection hb with hb2
          rw [← hb2]
          exact processSections_inv bc "Content" goodS_Content
        next => cases hb
      next =>
        injection hb with hb2
        rw [← hb2]
        exact processSections_inv bv "Content" goodS_Content
    next =>
      injection hb with hb2
      rw [← hb2]
      exact outInv_nil
  next =>
    injection hb with hb2
    rw [← hb2]
    exact outInv_nil

/-- Claim C1, corrected.  For a FullTextResult whose sections come from the
structured body walk (not the whole-article fallback), the fullText field is
not the concatenation of title, newline, content, newline over the sections:
each raw chunk carries a blank-line separator and a further newline, and the
buffer is trimmed once at the end.  The fullText therefore equals the
sections rendered as title, newline, content, joined by three newlines. -/
theorem c1_fullText_structured (article : JVal) (c : String) (secs : List Section)
    (buf : String) (hb : bodyResult article = some (secs, buf)) (hne : secs ≠ []) :
    ∃ r, getFullTextOne article c = some r ∧ r.sections = secs ∧
      r.fullText = joinSep "\n\n\n" (secs.map (fun sec => sec.title ++ "\n" ++ sec.content)) := by
  have hinv := bodyResult_inv hb
  refine ⟨⟨ftPmid article, "PMC" ++ c, ftTitle article, jsTrim buf, secs⟩, ?_, rfl, ?_⟩
  · unfold getFullTextOne
    rw [hb]
    dsimp only
    have h1 : ¬ (secs.length = 0 ∧ jsTrim buf = "") := fun hc =>
      hne (List.length_eq_zero.mp hc.1)
    rw [if_neg h1, if_pos (Or.inr hne)]
  · show jsTrim buf = _
    have hb1 : buf = strConcat (secs.map chunkOf) := hinv.1
    have hb2 : ∀ sec ∈ secs, goodSec sec := hinv.2
    rw [hb1, jsTrim_chunks secs hb2]
    rfl

def artC1 : JVal :=
  .obj [("body", .obj [("sec", .arr [.obj [("title", .str "Intro"), ("p", .str "A.")],
    .obj [("title", .str "Methods"), ("p", .str "B.")]])])]

/-- Claim C1, counterexample.  A two-section article from the structured
walk: the fullText field is Intro newline A. three newlines Methods newline
B., not the claimed concatenation of title, newline, content, newline per
section (which would be Intro newline A. newline Methods newline B. newline). -/
theorem c1_counterexample :
    ∃ r, getFullTextOne artC1 "1" = some r ∧ r.sections ≠ [] ∧
      r.fullText ≠
        strConcat (r.sections.map (fun sec => sec.title ++ "\n" ++ sec.content ++ "\n")) := by
  refine ⟨⟨.str "", "PMC1", some (.str "Unknown title"), "Intro\nA.\n\n\nMethods\nB.",
    [⟨"Intro", "A."⟩, ⟨"Methods", "B."⟩]⟩, ?_, by decide, by decide⟩
  simp [getFullTextOne, bodyResult, processSections, processSecList, pushSec, resolveTitle,
    secContentOf, collectParas, extractText, lookupTruthy, jsField, lookupField, truthy,
    toArray, ftPmid, ftTitle, ftArticleMeta, jsOpt, jsOr, jsOrOpt, jsIndex0, otruthy,
    pPartOf, artC1]
  decide

/-- Claim C1, witness for the corrected statement. -/
theorem c1_witness :
    ∃ r : FullTextResult, getFullTextOne artC1 "1" = some r ∧
      r.sections = [⟨"Intro", "A."⟩, ⟨"Methods", "B."⟩] ∧
      r.fullText = joinSep "\n\n\n" (([⟨"Intro", "A."⟩, ⟨"Methods", "B."⟩] : List Section).map
        (fun sec => sec.title ++ "\n" ++ sec.content)) := by
  have hb : bodyResult artC1 =
      some ([⟨"Intro", "A."⟩, ⟨"Methods", "B."⟩], "Intro\nA.\n\n\nMethods\nB.\n\n\n") := by
    simp [bodyResult, processSections, processSecList, pushSec, resolveTitle, secContentOf,
      collectParas, extractText, lookupTruthy, jsField, lookupField, truthy, toArray,
      pPartOf, artC1]
    decide
  exact c1_fullText_structured artC1 "1" _ _ hb (by decide)

/-! ## Claim C3 -/

/-- Claim C3, corrected.  When a section node has both its own truthy
paragraph field and truthy nested sub-sections, the walk recurses into the
whole node: the nested sub-sections are emitted first, and then the
direct-paragraph pass of the recursive call emits the node's own paragraph
text as a further Section titled with the resolved title the caller passed
in.  The text is reordered after the sub-sections, not dropped. -/
theorem c3_own_paragraphs_emitted (s : JVal) (t : String) (v pv : JVal)
    (hsec : lookupTruthy s "sec" = some v) (hp : lookupTruthy s "p" = some pv)
    (hc : jsTrim (collectParas (toArray pv)) ≠ "") :
    processSections s t =
      ((processSecList (toArray v) t).1 ++ [⟨t, jsTrim (collectParas (toArray pv))⟩],
       (processSecList (toArray v) t).2 ++ (t ++ "\n" ++ collectParas (toArray pv) ++ "\n")) := by
  rw [processSections_some t hsec]
  simp only [pPartOf, hp]
  simp only [pushSec, if_pos hc]

def artC3 : JVal :=
  .obj [("body", .obj [("sec", .obj [("title", .str "Intro"), ("p", .str "Own text."),
    ("sec", .obj [("title", .str "Sub"), ("p", .str "Sub text.")])])])]

/-- Claim C3, counterexample.  In a body whose single section has both its
own paragraph and a nested sub-section, the own paragraph text does appear
in an emitted Section: the result sections are the sub-section followed by
a Section titled Intro holding exactly the own paragraph text. -/
theorem c3_counterexample :
    ∃ r : FullTextResult, getFullTextOne artC3 "2" = some r ∧
      r.sections = [⟨"Sub", "Sub text."⟩, ⟨"Intro", "Own text."⟩] ∧
      (⟨"Intro", "Own text."⟩ : Section) ∈ r.sections := by
  refine ⟨⟨.str "", "PMC2", some (.str "Unknown title"),
    "Sub\nSub text.\n\n\nIntro\nOwn text.",
    [⟨"Sub", "Sub text."⟩, ⟨"Intro", "Own text."⟩]⟩, ?_, by decide, by decide⟩
  simp [getFullTextOne, bodyResult, processSections, processSecList, pushSec, resolveTitle,
    secContentOf, collectParas, extractText, lookupTruthy, jsField, lookupField, truthy,
    toArray, ftPmid, ftTitle, ftArticleMeta, jsOpt, jsOr, jsOrOpt, jsIndex0, otruthy,
    pPartOf, artC3]
  decide

def secC3 : JVal :=
  .obj [("title", .str "Intro"), ("p", .str "Own text."),
    ("sec", .obj [("title", .str "Sub"), ("p", .str "Sub text.")])]

/-- Claim C3, witness for the corrected statement. -/
theorem c3_witness :
    processSections secC3 "Intro" =
      ([⟨"Sub", "Sub text."⟩, ⟨"Intro", "Own text."⟩],
        "Sub\nSub text.\n\n\nIntro\nOwn text.\n\n\n") := by
  have happ := c3_own_paragraphs_emitted secC3 "Intro"
    (.obj [("title", .str "Sub"), ("p", .str "Sub text.")]) (.str "Own text.")
    (by decide) (by decide)
    (by simp [collectParas, toArray, extractText]; decide)
  rw [happ]
  simp [processSecList, processSections, pushSec, resolveTitle, secContentOf, collectParas,
    extractText, lookupTruthy, jsField, lookupField, truthy, toArray, pPartOf]
  decide

/-! ## Claim C6 -/

/-- Claim C6, confirmed.  When the body walk yields no sections and an
empty (after trim) full-text buffer, getFullText runs the whole-article
fallback extractor on the entire article node, and whenever that text trims
non-empty the returned record holds exactly one Section titled Full Article
Content whose content is all the recovered text, which is also the whole
fullText field. -/
theorem c6_fallback (article : JVal) (c : String) (buf : String)
    (hb : bodyResult article = some ([], buf)) (hbe : jsTrim buf = "")
    (hf : jsTrim (fallbackExtractText article) ≠ "") :
    ∃ r : FullTextResult, getFullTextOne article c = some r ∧
      r.sections = [⟨"Full Article Content", jsTrim (fallbackExtractText article)⟩] ∧
      r.fullText = jsTrim (fallbackExtractText article) := by
  refine ⟨⟨ftPmid article, "PMC" ++ c, ftTitle article,
    jsTrim (jsTrim (fallbackExtractText article)),
    [⟨"Full Article Content", jsTrim (fallbackExtractText article)⟩]⟩, ?_, rfl, ?_⟩
  · unfold getFullTextOne
    rw [hb]
    dsimp only
    have hc1 : (([] : List Section).length = 0 ∧ jsTrim buf = "") := ⟨rfl, hbe⟩
    rw [if_pos hc1, if_pos hf, if_pos (Or.inr (List.cons_ne_nil _ _))]
  · show jsTrim (jsTrim (fallbackExtractText article)) = _
    exact jsTrim_of_goodS (goodS_jsTrim hf)

def artC6 : JVal := .obj [("front", .str "Some text")]

/-- Claim C6, witness. -/
theorem c6_witness :
    ∃ r : FullTextResult, getFullTextOne artC6 "9" = some r ∧
      r.sections = [⟨"Full Article Content", jsTrim (fallbackExtractText artC6)⟩] ∧
      r.fullText = jsTrim (fallbackExtractText artC6) :=
  c6_fallback artC6 "9" "" (by decide) (by decide)
    (by simp [fallbackExtractText, fbVals, fbItems, jsField, lookupField, artC6]; decide)

/-! ## Claim C4 -/

theorem mkArticle_spec {a : JVal} {art : PubMedArticle} (h : mkArticle a = some art) :
    ∃ mc ad, jsField a "MedlineCitation" = some mc ∧ jsField mc "Article" = some ad ∧
      art.title = articleTitleOf ad ∧ art.journal = journalOf ad ∧
      art.authors = authorsOf ad ∧ art.publicationDate = publicationDateOf ad := by
  unfold mkArticle at h
  cases hmc : jsField a "MedlineCitation" with
  | none => rw [hmc] at h; simp at h
  | some mc =>
    rw [hmc] at h
    simp only [Option.bind_eq_bind, Option.some_bind] at h
    cases hpv : jsField mc "PMID" with
    | none => rw [hpv] at h; simp at h
    | some pv =>
      rw [hpv] at h
      simp only [Option.bind_eq_bind, Option.some_bind] at h
      cases had : jsField mc "Article" with
      | none => rw [had] at h; simp at h
      | some ad =>
        rw [had] at h
        simp only [Option.bind_eq_bind, Option.some_bind] at h
        cases hab : abstractOf ad with
        | none => rw [hab] at h; simp at h
        | some abs =>
          rw [hab] at h
          simp only [Option.bind_eq_bind, Option.some_bind] at h
          cases hid : idScan (articleIdsOf a) (some (.str ""), some (.str "")) with
          | none => rw [hid] at h; simp at h
          | some st =>
            rw [hid] at h
            simp only [Option.bind_eq_bind, Option.some_bind] at h
            injection h with h2
            subst h2
            exact ⟨mc, ad, rfl, had, rfl, rfl, rfl, rfl⟩

theorem truthy_jsOr {o : Option JVal} {d : JVal} (hd : truthy d = true) :
    truthy (jsOr o d) = true := by
  unfold jsOr
  cases o with
  | none => exact hd
  | some v =>
    by_cases hv : truthy v
    · simp [hv]
    · simp [hv, hd]

/-- Claim C4, corrected.  Every article mapped by getArticleDetails has a
truthy (non-empty) title and journal and only truthy author entries, but
the publication date is the placeholder exactly when the PubDate node is
absent or falsy; when the node is truthy and none of the year, month, day
tokens is truthy, the publication date is the empty string, not the
placeholder. -/
theorem c4_default_filling (a : JVal) (art : PubMedArticle) (h : mkArticle a = some art) :
    truthy art.title = true ∧ truthy art.journal = true ∧
      (∀ x ∈ art.authors, truthy x = true) ∧
      (∀ mc ad, jsField a "MedlineCitation" = some mc → jsField mc "Article" = some ad →
        art.publicationDate = publicationDateOf ad ∧
        (otruthy (pubDateNode ad) = false → art.publicationDate = "Unknown date") ∧
        (∀ pd, pubDateNode ad = some pd → truthy pd = true → pubDateTokens pd = [] →
          art.publicationDate = "")) := by
  obtain ⟨mc, ad, hmc, had, htitle, hjournal, hauthors, hdate⟩ := mkArticle_spec h
  refine ⟨?_, ?_, ?_, ?_⟩
  · rw [htitle]
    exact truthy_jsOr (by decide)
  · rw [hjournal]
    exact truthy_jsOr (by decide)
  · intro x hx
    rw [hauthors] at hx
    exact List.of_mem_filter hx
  · intro mc2 ad2 hmc2 had2
    rw [hmc] at hmc2
    injection hmc2 with hmc3
    subst hmc3
    rw [had] at had2
    injection had2 with had3
    subst had3
    refine ⟨hdate, ?_, ?_⟩
    · intro hfalse
      rw [hdate]
      unfold publicationDateOf
      cases hpd : pubDateNode ad with
      | none => rfl
      | some pd =>
        rw [hpd] at hfalse
        simp only [otruthy] at hfalse
        simp [hfalse]
    · intro pd hpd hpdt htok
      rw [hdate]
      unfold publicationDateOf
      rw [hpd]
      simp [hpdt, htok, joinSep]

def artC4 : JVal :=
  .obj [("MedlineCitation", .obj [("PMID", .str "1"),
    ("Article", .obj [("ArticleTitle", .str "T"),
      ("Journal", .obj [("Title", .str "J"),
        ("JournalIssue", .obj [("PubDate",
          .obj [("MedlineDate", .str "2019 Nov-Dec")])])])])])]

/-- Claim C4, counterexample.  An article whose PubDate node holds only a
MedlineDate child (a common real shape): the node is truthy, so the
placeholder is overwritten by the join of the year, month, day tokens, all
absent, and the publication date comes out as the empty string. -/
theorem c4_counterexample :
    ∃ art : PubMedArticle, mkArticle artC4 = some art ∧
      art.publicationDate = "" ∧ art.publicationDate ≠ "Unknown date" := by
  refine ⟨⟨.str "1", .str "T", [], .str "J", "", "", some (.str ""), some (.str ""),
    "https://pubmed.ncbi.nlm.nih.gov/1/"⟩, ?_, by decide, by decide⟩
  simp [mkArticle, artC4, jsField, lookupField, jsOr, jsOpt, truthy, articleTitleOf,
    journalOf, authorsOf, publicationDateOf, pubDateNode, pubDateTokens, abstractOf,
    articleIdsOf, idScan, toArray, authorName, authorAlt, jsToString, jsToStringL,
    absTextPiece, mapOpt, joinSep, otruthy]
  all_goals decide

def artC4w : JVal :=
  .obj [("MedlineCitation", .obj [("PMID", .str "2"),
    ("Article", .obj [("ArticleTitle", .str "T2")])])]

/-- Claim C4, witness for the corrected statement. -/
theorem c4_witness :
    ∃ art : PubMedArticle, mkArticle artC4w = some art ∧
      truthy art.title = true ∧ truthy art.journal = true ∧
      (∀ x ∈ art.authors, truthy x = true) ∧ art.publicationDate = "Unknown date" := by
  have hmk : mkArticle artC4w = some ⟨.str "2", .str "T2", [], .str "Unknown journal",
      "Unknown date", "", some (.str ""), some (.str ""),
      "https://pubmed.ncbi.nlm.nih.gov/2/"⟩ := by
    simp [mkArticle, artC4w, jsField, lookupField, jsOr, jsOpt, truthy, articleTitleOf,
      journalOf, authorsOf, publicationDateOf, pubDateNode, pubDateTokens, abstractOf,
      articleIdsOf, idScan, toArray, authorName, authorAlt, jsToString, jsToStringL,
      absTextPiece, mapOpt, joinSep, otruthy]
    all_goals decide
  refine ⟨_, hmk, ?_, ?_, ?_, ?_⟩
  · exact (c4_default_filling artC4w _ hmk).1
  · exact (c4_default_filling artC4w _ hmk).2.1
  · exact (c4_default_filling artC4w _ hmk).2.2.1
  · exact ((c4_default_filling artC4w _ hmk).2.2.2
      (.obj [("PMID", .str "2"), ("Article", .obj [("ArticleTitle", .str "T2")])])
      (.obj [("ArticleTitle", .str "T2")]) (by decide) (by decide)).2.1 (by decide)

/-! ## Claim C9 -/

/-- Claim C9, confirmed.  On the empty identifier list each public fetch
operation returns its empty result immediately, with an empty event trace
(no network request) and no raised error. -/
theorem c9_empty_input (env : Env) :
    getArticleSummaries env [] = (.ok [], []) ∧
    getArticleDetails env [] = (.ok [], []) ∧
    getFullAbstract env [] = (.ok [], []) ∧
    getFullText env [] = ([], []) ∧
    getCitationCounts env [] = ([], []) :=
  ⟨rfl, rfl, rfl, rfl, rfl⟩

/-! ## Claim C8 -/

theorem getCitationCounts_cons (env : Env) (p : String) (rest : List String) :
    (getCitationCounts env (p :: rest)).1 =
      (getCitationCountOne env p).1 :: (getCitationCounts env rest).1 := by
  rcases h1 : getCitationCountOne env p with ⟨r1, tr⟩
  rcases h2 : getCitationCounts env rest with ⟨rs, trs⟩
  simp [getCitationCounts, h1, h2]

theorem getCitationCountOne_inv (env : Env) (p : String) :
    (getCitationCountOne env p).1.citingPmids.length ≤ 100 ∧
      ((getCitationCountOne env p).1.error ≠ none →
        (getCitationCountOne env p).1.citationCount = 0 ∧
        (getCitationCountOne env p).1.citingPmids = []) := by
  unfold getCitationCountOne
  rcases hd : getArticleDetails env [p] with ⟨dres, dtr⟩
  cases dres with
  | error msg => simp
  | ok arts =>
    by_cases hok : env.elinkOk p
    · simp only [hok, if_true]
      constructor
      · simp [List.length_take]
      · intro hcontra
        simp at hcontra
    · simp [hok]

/-- Claim C8, confirmed.  Every CitationCountResult has a citing list of at
most 100 entries, and when the error field is present the count is 0 and
the citing list empty. -/
theorem c8_citation_invariants (env : Env) (pmids : List String) (r : CitationCountResult)
    (hr : r ∈ (getCitationCounts env pmids).1) :
    r.citingPmids.length ≤ 100 ∧
      (r.error ≠ none → r.citationCount = 0 ∧ r.citingPmids = []) := by
  induction pmids with
  | nil => cases hr
  | cons p rest ih =>
    rw [getCitationCounts_cons] at hr
    rcases List.mem_cons.mp hr with h | h
    · subst h
      exact getCitationCountOne_inv env p
    · exact ih h

def envT : Env where
  now := 0
  summariesOk := fun _ => true
  summariesStatus := fun _ => 200
  summariesParsed := fun _ => .obj []
  detailsOk := fun _ => true
  detailsStatus := fun _ => 200
  detailsParsed := fun _ => .obj []
  abstractOk := fun _ => true
  abstractStatus := fun _ => 200
  abstractParsed := fun _ => .obj []
  ftOk := fun _ => true
  ftRawErr := fun _ => false
  ftParsed := fun _ => .obj []
  elinkOk := fun _ => true
  elinkStatus := fun _ => 200
  elinkParsed := fun _ => .obj [("eLinkResult", .obj [("LinkSet", .obj [("LinkSetDb",
    .obj [("LinkName", .str "pubmed_pubmed_citedin"), ("Link", .arr [.obj [("Id", .str "9")],
      .obj [("Id", .str "8")]])])])])]
  similarResult := fun _ => .ok []
  risResult := fun ids => ⟨ids, "", 0, 0, []⟩

/-- Claim C8, witness. -/
theorem c8_witness :
    (⟨"1", .str "Unknown title", 2, [.str "9", .str "8"], none⟩ :
      CitationCountResult).citingPmids.length ≤ 100 ∧
      ((⟨"1", .str "Unknown title", 2, [.str "9", .str "8"], none⟩ :
        CitationCountResult).error ≠ none →
        (⟨"1", .str "Unknown title", 2, [.str "9", .str "8"], none⟩ :
          CitationCountResult).citationCount = 0 ∧
        (⟨"1", .str "Unknown title", 2, [.str "9", .str "8"], none⟩ :
          CitationCountResult).citingPmids = []) :=
  c8_citation_invariants envT ["1"] _ (by decide)

/-! ## Batch orchestration lemmas -/

/-- The outcome a kind group would record, independent of the result buckets
threaded so far. -/
def runKindOutcome (env : Env) (pmids operations : List String) (k : String) : Option String :=
  (runKind env pmids operations k {}).1

theorem runKind_fst (env : Env) (pmids operations : List String) (k : String)
    (res : BatchResults) :
    (runKind env pmids operations k res).1 =
      (if k = "abstract" then (abstractChunks env (kindIds pmids operations k)).1
       else if k = "full_text" then
         match (getArticleDetails env (kindIds pmids operations k)).1 with
         | .error e => some e
         | .ok _ => none
       else none) := by
  by_cases h1 : k = "abstract"
  · subst h1
    rcases ha : abstractChunks env (kindIds pmids operations "abstract") with ⟨o, col, tr⟩
    simp [runKind, ha]
  by_cases h2 : k = "citations"
  · subst h2
    rcases hc : citationChunks env (kindIds pmids operations "citations") with ⟨col, tr⟩
    simp [runKind, hc]
  by_cases h3 : k = "similar"
  · subst h3
    rcases hs : similarLoop env (kindIds pmids operations "similar") [] with ⟨m, tr⟩
    simp [runKind, hs]
  by_cases h4 : k = "ris_export"
  · subst h4
    rcases hr : risChunks env (kindIds pmids operations "ris_export") with ⟨cs, tr⟩
    simp [runKind, hr]
  by_cases h5 : k = "full_text"
  · subst h5
    rcases hd : getArticleDetails env (kindIds pmids operations "full_text") with ⟨dres, dtr⟩
    cases dres with
    | error e => simp [runKind, hd]
    | ok arts =>
      by_cases hemp : (arts.filterMap (fun a =>
          match a.pmcId with
          | some w => if truthy w then some w else none
          | none => none)).isEmpty
      · simp [runKind, hd, hemp]
      · rcases hf : fullTextChunks env (arts.filterMap (fun a =>
            match a.pmcId with
            | some w => if truthy w then some w else none
            | none => none)) with ⟨fts, tr2⟩
        simp [runKind, hd, hemp, hf]
  · simp [runKind, h1, h2, h3, h4, h5]

theorem runKind_fst_const (env : Env) (pmids operations : List String) (k : String)
    (res : BatchResults) :
    (runKind env pmids operations k res).1 = runKindOutcome env pmids operations k := by
  unfold runKindOutcome
  rw [runKind_fst, runKind_fst]

theorem runKinds_fst_cons (env : Env) (pmids operations : List String) (k2 : String)
    (ks : List String) (res : BatchResults) :
    (runKinds env pmids operations (k2 :: ks) res).1 =
      (k2, (runKind env pmids operations k2 res).1) ::
        (runKinds env pmids operations ks (runKind env pmids operations k2 res).2.1).1 := by
  rcases h1 : runKind env pmids operations k2 res with ⟨o, r1, t1⟩
  rcases h2 : runKinds env pmids operations ks r1 with ⟨os, r2, t2⟩
  simp [runKinds, h1, h2]

theorem runKinds_find (env : Env) (pmids operations : List String) (k : String) :
    ∀ (kinds : List String) (res : BatchResults), k ∈ kinds →
      ∃ o, ((runKinds env pmids operations kinds res).1.find? (fun pr => pr.1 == k))
          = some (k, o) ∧ o = runKindOutcome env pmids operations k := by
  intro kinds
  induction kinds with
  | nil => intro res h; cases h
  | cons k2 ks ih =>
    intro res hmem
    rw [runKinds_fst_cons]
    by_cases hk : k2 = k
    · subst hk
      refine ⟨(runKind env pmids operations k2 res).1, ?_,
        runKind_fst_const env pmids operations k2 res⟩
      rw [List.find?_cons_of_pos _ (by simp)]
    · have hmem2 : k ∈ ks := by
        rcases List.mem_cons.mp hmem with h | h
        · exact absurd h.symm hk
        · exact h
      obtain ⟨o, hfind, ho⟩ := ih ((runKind env pmids operations k2 res).2.1) hmem2
      refine ⟨o, ?_, ho⟩
      rw [List.find?_cons_of_neg _ (by simpa using hk)]
      exact hfind

theorem dedupKinds_mem {x : String} : ∀ {l seen : List String},
    x ∈ l → x ∉ seen → x ∈ dedupKinds l seen := by
  intro l
  induction l with
  | nil => intro seen h _; cases h
  | cons a t ih =>
    intro seen hmem hns
    by_cases ha : a ∈ seen
    · simp only [dedupKinds, if_pos ha]
      rcases List.mem_cons.mp hmem with h | h
      · subst h; exact absurd ha hns
      · exact ih h hns
    · simp only [dedupKinds, if_neg ha]
      rcases List.mem_cons.mp hmem with h | h
      · subst h; exact List.mem_cons_self _ _
      · by_cases hx : x = a
        · subst hx; exact List.mem_cons_self _ _
        · refine List.mem_cons_of_mem _ (ih h ?_)
          intro hc
          rcases List.mem_cons.mp hc with h2 | h2
          · exact hx h2
          · exact hns h2

theorem initOps_mem {op : BatchOperation} {pmids ops : List String}
    (h : op ∈ initOps pmids ops) : op.operation ∈ ops ∧ pmids ≠ [] := by
  unfold initOps at h
  rw [List.mem_flatten] at h
  obtain ⟨l, hl, hopl⟩ := h
  rw [List.mem_map] at hl
  obtain ⟨p, hp, rfl⟩ := hl
  rw [List.mem_map] at hopl
  obtain ⟨k, hk, rfl⟩ := hopl
  refine ⟨by simpa using hk, ?_⟩
  intro hnil
  subst hnil
  cases hp

theorem applyOutcome_none {outcomes : List (String × Option String)} {op0 : BatchOperation}
    (hfind : outcomes.find? (fun p => p.1 == op0.operation) = some (op0.operation, none)) :
    applyOutcome outcomes op0 = { op0 with status := .completed } := by
  unfold applyOutcome
  rw [hfind]
  rfl

theorem applyOutcome_some {outcomes : List (String × Option String)} {op0 : BatchOperation}
    {m : String}
    (hfind : outcomes.find? (fun p => p.1 == op0.operation) = some (op0.operation, some m)) :
    applyOutcome outcomes op0 = { op0 with status := .error, error := some m } := by
  unfold applyOutcome
  rw [hfind]
  rfl

theorem applyOutcome_fields (outcomes : List (String × Option String)) (op : BatchOperation) :
    (applyOutcome outcomes op).pmid = op.pmid ∧
      (applyOutcome outcomes op).operation = op.operation := by
  unfold applyOutcome
  split
  · exact ⟨rfl, rfl⟩
  · exact ⟨rfl, rfl⟩
  · exact ⟨rfl, rfl⟩

theorem batchProcess_ops (env : Env) (pmids operations : List String) :
    (batchProcess env pmids operations).1.operations =
      (initOps pmids operations).map
        (applyOutcome (runKinds env pmids operations
          (if pmids.isEmpty then [] else dedupKinds operations []) {}).1) := by
  rcases hrk : runKinds env pmids operations
      (if pmids.isEmpty then [] else dedupKinds operations []) {} with ⟨outcomes, res, tr⟩
  simp only [batchProcess, hrk]

theorem batchProcess_summary (env : Env) (pmids operations : List String) :
    (batchProcess env pmids operations).1.summary.total =
        (batchProcess env pmids operations).1.operations.length ∧
      (batchProcess env pmids operations).1.summary.completed =
        ((batchProcess env pmids operations).1.operations.filter
          (fun op => op.status == .completed)).length ∧
      (batchProcess env pmids operations).1.summary.failed =
        ((batchProcess env pmids operations).1.operations.filter
          (fun op => op.status == .error)).length ∧
      (batchProcess env pmids operations).1.summary.processing =
        ((batchProcess env pmids operations).1.operations.filter
          (fun op => op.status == .processing)).length := by
  rcases hrk : runKinds env pmids operations
      (if pmids.isEmpty then [] else dedupKinds operations []) {} with ⟨outcomes, res, tr⟩
  simp only [batchProcess, hrk]
  exact ⟨trivial, trivial, trivial, trivial⟩

/-- Decomposition of a final operation entry: it arises from a pending entry
whose kind group ran, and its status reflects that kind group outcome. -/
theorem batch_op_outcome (env : Env) (pmids operations : List String) (op : BatchOperation)
    (hop : op ∈ (batchProcess env pmids operations).1.operations) :
    ∃ op0, op0 ∈ initOps pmids operations ∧ op0.operation ∈ operations ∧
      ((runKindOutcome env pmids operations op0.operation = none ∧
          op = { op0 with status := .completed }) ∨
        (∃ m, runKindOutcome env pmids operations op0.operation = some m ∧
          op = { op0 with status := .error, error := some m })) := by
  rw [batchProcess_ops] at hop
  obtain ⟨op0, hop0, rfl⟩ := List.mem_map.mp hop
  obtain ⟨hkop, hpne⟩ := initOps_mem hop0
  have hkinds : op0.operation ∈ (if pmids.isEmpty then [] else dedupKinds operations []) := by
    rw [if_neg (by simpa [List.isEmpty_iff] using hpne)]
    exact dedupKinds_mem hkop (by simp)
  obtain ⟨o, hfind, ho⟩ := runKinds_find env pmids operations op0.operation
    (if pmids.isEmpty then [] else dedupKinds operations []) {} hkinds
  refine ⟨op0, hop0, hkop, ?_⟩
  cases o with
  | none => exact Or.inl ⟨ho.symm, applyOutcome_none hfind⟩
  | some m => exact Or.inr ⟨m, ho.symm, applyOutcome_some hfind⟩

/-! ## Claim C5 -/

theorem initOps_map_pair (pmids ops : List String) :
    (initOps pmids ops).map (fun op => (op.pmid, op.operation)) =
      (pmids.map (fun p => ops.map (fun k => (p, k)))).flatten := by
  induction pmids with
  | nil => rfl
  | cons p ps ih =>
    simp only [initOps, List.map_cons, List.flatten_cons, List.map_append] at ih ⊢
    rw [ih, List.map_map]
    rfl

theorem initOps_length (pmids ops : List String) :
    (initOps pmids ops).length = pmids.length * ops.length := by
  induction pmids with
  | nil => simp [initOps]
  | cons p ps ih =>
    simp only [initOps, List.map_cons, List.flatten_cons, List.length_append,
      List.length_map, List.length_cons] at ih ⊢
    rw [ih]
    ring

/-- Claim C5, confirmed.  The final operations list is in bijection with the
pmid-by-kind product: projecting each entry to its (pmid, operation) pair
yields exactly the nested product (pmids outermost), and its length is
N times K. -/
theorem c5_operations_product (env : Env) (pmids operations : List String) :
    ((batchProcess env pmids operations).1.operations.map
        (fun op => (op.pmid, op.operation)) =
      (pmids.map (fun p => operations.map (fun k => (p, k)))).flatten) ∧
    (batchProcess env pmids operations).1.operations.length =
      pmids.length * operations.length := by
  rw [batchProcess_ops]
  constructor
  · rw [List.map_map]
    have hcomp : ((fun op : BatchOperation => (op.pmid, op.operation)) ∘
        applyOutcome (runKinds env pmids operations
          (if pmids.isEmpty then [] else dedupKinds operations []) {}).1) =
        (fun op : BatchOperation => (op.pmid, op.operation)) := by
      funext op
      have h2 := applyOutcome_fields (runKinds env pmids operations
        (if pmids.isEmpty then [] else dedupKinds operations []) {}).1 op
      show ((applyOutcome (runKinds env pmids operations
          (if pmids.isEmpty then [] else dedupKinds operations []) {}).1 op).pmid,
        (applyOutcome (runKinds env pmids operations
          (if pmids.isEmpty then [] else dedupKinds operations []) {}).1 op).operation) =
        (op.pmid, op.operation)
      rw [h2.1, h2.2]
    rw [hcomp, initOps_map_pair]
  · rw [List.length_map, initOps_length]

/-! ## Claim C10 -/

theorem filter_two_partition {l : List BatchOperation}
    (h : ∀ op ∈ l, op.status = OpStatus.completed ∨ op.status = OpStatus.error) :
    (l.filter (fun op => op.status == OpStatus.completed)).length +
      (l.filter (fun op => op.status == OpStatus.error)).length = l.length := by
  induction l with
  | nil => rfl
  | cons a t ih =>
    have ha := h a (by simp)
    have iht := ih (fun op hm => h op (by simp [hm]))
    rcases ha with ha | ha <;> simp [List.filter_cons, ha] <;> omega

theorem filter_processing_empty {l : List BatchOperation}
    (h : ∀ op ∈ l, op.status = OpStatus.completed ∨ op.status = OpStatus.error) :
    (l.filter (fun op => op.status == OpStatus.processing)).length = 0 := by
  induction l with
  | nil => rfl
  | cons a t ih =>
    have ha := h a (by simp)
    have iht := ih (fun op hm => h op (by simp [hm]))
    rcases ha with ha | ha <;> simp [List.filter_cons, ha, iht]

theorem batch_status_final (env : Env) (pmids operations : List String) :
    ∀ op ∈ (batchProcess env pmids operations).1.operations,
      op.status = OpStatus.completed ∨ op.status = OpStatus.error := by
  intro op hop
  obtain ⟨op0, _, _, h⟩ := batch_op_outcome env pmids operations op hop
  rcases h with ⟨_, rfl⟩ | ⟨m, _, rfl⟩
  · exact Or.inl rfl
  · exact Or.inr rfl

/-- Claim C10, confirmed.  After batchProcess every operation entry ends
completed or error (none pending or processing), and the summary counts are
consistent: total is the number of entries, completed plus failed equals
total, and processing is zero. -/
theorem c10_batch_summary (env : Env) (pmids operations : List String) :
    ((batchProcess env pmids operations).1.operations.all
        (fun op => op.status == OpStatus.completed || op.status == OpStatus.error)) = true ∧
      (batchProcess env pmids operations).1.summary.total =
        (batchProcess env pmids operations).1.operations.length ∧
      (batchProcess env pmids operations).1.summary.completed +
          (batchProcess env pmids operations).1.summary.failed =
        (batchProcess env pmids operations).1.summary.total ∧
      (batchProcess env pmids operations).1.summary.processing = 0 := by
  have hst := batch_status_final env pmids operations
  obtain ⟨ht, hc, hf, hp⟩ := batchProcess_summary env pmids operations
  refine ⟨?_, ht, ?_, ?_⟩
  · rw [List.all_eq_true]
    intro op hop
    rcases hst op hop with h | h <;> simp [h]
  · rw [ht, hc, hf]
    exact filter_two_partition hst
  · rw [hp]
    exact filter_processing_empty hst

/-! ## Claim C2 -/

theorem runKindOutcome_abstract (env : Env) (pmids operations : List String) :
    runKindOutcome env pmids operations "abstract" =
      (abstractChunks env (kindIds pmids operations "abstract")).1 := by
  unfold runKindOutcome
  rw [runKind_fst]
  simp

theorem runKindOutcome_citations (env : Env) (pmids operations : List String) :
    runKindOutcome env pmids operations "citations" = none := by
  unfold runKindOutcome
  rw [runKind_fst]
  simp

theorem batchProcess_results (env : Env) (pmids operations : List String) :
    (batchProcess env pmids operations).1.results =
      (runKinds env pmids operations
        (if pmids.isEmpty then [] else dedupKinds operations []) {}).2.1 := by
  rcases hrk : runKinds env pmids operations
      (if pmids.isEmpty then [] else dedupKinds operations []) {} with ⟨outcomes, res, tr⟩
  simp only [batchProcess, hrk]

theorem abstractChunks_err (env : Env) (a : String) (rest0 : List String) {e : String}
    {tr : List Ev} (h : getFullAbstract env ((a :: rest0).take 20) = (.error e, tr)) :
    abstractChunks env (a :: rest0) = (some e, [], tr) := by
  rw [abstractChunks]
  simp only [h]

theorem abstractChunks_last (env : Env) (a : String) (rest0 : List String)
    (hemp : ((a :: rest0).drop 20).isEmpty = true) {rs : List FullAbstractResult}
    {tr : List Ev} (h : getFullAbstract env ((a :: rest0).take 20) = (.ok rs, tr)) :
    abstractChunks env (a :: rest0) = (none, rs, tr) := by
  rw [abstractChunks]
  simp only [h]
  rw [if_pos hemp]

theorem abstractChunks_step (env : Env) (a : String) (rest0 : List String)
    (hne : ((a :: rest0).drop 20).isEmpty = false) {rs : List FullAbstractResult}
    {tr : List Ev} (h : getFullAbstract env ((a :: rest0).take 20) = (.ok rs, tr)) :
    abstractChunks env (a :: rest0) =
      ((abstractChunks env ((a :: rest0).drop 20)).1,
        rs ++ (abstractChunks env ((a :: rest0).drop 20)).2.1,
        tr ++ [Ev.sleep 300] ++ (abstractChunks env ((a :: rest0).drop 20)).2.2) := by
  rcases hq : abstractChunks env ((a :: rest0).drop 20) with ⟨o, rs2, tr2⟩
  rw [abstractChunks]
  simp only [h, hq]
  rw [if_neg (fun hc => by rw [hc] at hne; exact absurd hne (by decide))]

theorem citationChunks_last (env : Env) (a : String) (rest0 : List String)
    (hemp : ((a :: rest0).drop 10).isEmpty = true) :
    citationChunks env (a :: rest0) = getCitationCounts env ((a :: rest0).take 10) := by
  rcases hp : getCitationCounts env ((a :: rest0).take 10) with ⟨rs, tr⟩
  rw [citationChunks]
  simp only [hp]
  rw [if_pos hemp]

theorem citationChunks_step (env : Env) (a : String) (rest0 : List String)
    (hne : ((a :: rest0).drop 10).isEmpty = false) :
    citationChunks env (a :: rest0) =
      ((getCitationCounts env ((a :: rest0).take 10)).1 ++
          (citationChunks env ((a :: rest0).drop 10)).1,
        (getCitationCounts env ((a :: rest0).take 10)).2 ++ [Ev.sleep 400] ++
          (citationChunks env ((a :: rest0).drop 10)).2) := by
  rcases hp : getCitationCounts env ((a :: rest0).take 10) with ⟨rs, tr⟩
  rcases hq : citationChunks env ((a :: rest0).drop 10) with ⟨rs2, tr2⟩
  rw [citationChunks]
  simp only [hp, hq]
  rw [if_neg (fun hc => by rw [hc] at hne; exact absurd hne (by decide))]

/-- Claim C2, corrected.  A raised failure in any chunk of the abstract kind
marks every abstract entry error with the shared message, and more generally
a kind whose group records no failure has all entries completed; but the
citations kind never raises (its transport failures are caught per
identifier inside getCitationCounts), so citations entries are always
marked completed. -/
theorem c2_kind_failure_policy (env : Env) (pmids operations : List String) :
    (∀ msg, (abstractChunks env (kindIds pmids operations "abstract")).1 = some msg →
      ∀ op ∈ (batchProcess env pmids operations).1.operations,
        op.operation = "abstract" →
          op.status = OpStatus.error ∧ op.error = some msg) ∧
    (∀ op ∈ (batchProcess env pmids operations).1.operations,
      op.operation = "citations" → op.status = OpStatus.completed) ∧
    (∀ op ∈ (batchProcess env pmids operations).1.operations,
      runKindOutcome env pmids operations op.operation = none →
        op.status = OpStatus.completed) := by
  refine ⟨?_, ?_, ?_⟩
  · intro msg hmsg op hop hko
    obtain ⟨op0, hmem0, hkin, hout⟩ := batch_op_outcome env pmids operations op hop
    rcases hout with ⟨hnone, rfl⟩ | ⟨m, hsome, rfl⟩
    · have hko0 : op0.operation = "abstract" := hko
      rw [hko0, runKindOutcome_abstract, hmsg] at hnone
      cases hnone
    · have hko0 : op0.operation = "abstract" := hko
      rw [hko0, runKindOutcome_abstract, hmsg] at hsome
      injection hsome with hm
      subst hm
      exact ⟨rfl, rfl⟩
  · intro op hop hko
    obtain ⟨op0, hmem0, hkin, hout⟩ := batch_op_outcome env pmids operations op hop
    rcases hout with ⟨hnone, rfl⟩ | ⟨m, hsome, rfl⟩
    · rfl
    · have hko0 : op0.operation = "citations" := hko
      rw [hko0, runKindOutcome_citations] at hsome
      cases hsome
  · intro op hop hko
    obtain ⟨op0, hmem0, hkin, hout⟩ := batch_op_outcome env pmids operations op hop
    rcases hout with ⟨hnone, rfl⟩ | ⟨m, hsome, rfl⟩
    · rfl
    · have hko0 : runKindOutcome env pmids operations op0.operation = none := hko
      rw [hko0] at hsome
      cases hsome

def envC2 : Env where
  now := 0
  summariesOk := fun _ => true
  summariesStatus := fun _ => 200
  summariesParsed := fun _ => .obj []
  detailsOk := fun _ => true
  detailsStatus := fun _ => 200
  detailsParsed := fun _ => .obj []
  abstractOk := fun _ => true
  abstractStatus := fun _ => 200
  abstractParsed := fun _ => .obj []
  ftOk := fun _ => true
  ftRawErr := fun _ => false
  ftParsed := fun _ => .obj []
  elinkOk := fun p => p != "p11"
  elinkStatus := fun _ => 500
  elinkParsed := fun _ => .obj []
  similarResult := fun _ => .ok []
  risResult := fun ids => ⟨ids, "", 0, 0, []⟩

def idsC2 : List String :=
  ["p1", "p2", "p3", "p4", "p5", "p6", "p7", "p8", "p9", "p10", "p11"]

/-- Claim C2, counterexample to the original wording: the transport layer
fails for the identifier in the second citations chunk, yet every citations
entry is marked completed; the failure surfaces only in the per-result
error field inside results.citations. -/
theorem c2_counterexample :
    envC2.elinkOk "p11" = false ∧
    idsC2.drop 10 = ["p11"] ∧
    (batchProcess envC2 idsC2 ["citations"]).1.operations.length = 11 ∧
    ((batchProcess envC2 idsC2 ["citations"]).1.operations.all
        (fun op => op.status == OpStatus.completed)) = true ∧
    ∃ col, (batchProcess envC2 idsC2 ["citations"]).1.results.citations = some col ∧
      ∃ r ∈ col, r.pmid = "p11" ∧ r.error = some "HTTP error! status: 500" := by
  refine ⟨rfl, rfl, ?_, ?_, ?_⟩
  · rw [batchProcess_ops, List.length_map, initOps_length]
    decide
  · rw [List.all_eq_true]
    intro op hop
    obtain ⟨op0, hmem0, hkin, hout⟩ := batch_op_outcome envC2 idsC2 ["citations"] op hop
    have hko0 : op0.operation = "citations" := by
      rcases List.mem_cons.mp hkin with h | h
      · exact h
      · cases h
    rcases hout with ⟨hnone, rfl⟩ | ⟨m, hsome, rfl⟩
    · simp
    · rw [hko0, runKindOutcome_citations] at hsome
      cases hsome
  · have hkid : kindIds idsC2 ["citations"] "citations" = idsC2 := by decide
    rcases hck : citationChunks envC2 idsC2 with ⟨col, trc⟩
    have hrk1 : runKind envC2 idsC2 ["citations"] "citations" {} =
        (none, { citations := some col }, trc) := by
      simp [runKind, hkid, hck]
    have hrks : runKinds envC2 idsC2 ["citations"] ["citations"] {} =
        ([("citations", none)], { citations := some col }, trc ++ []) := by
      simp [runKinds, hrk1]
    have hres : (batchProcess envC2 idsC2 ["citations"]).1.results =
        { citations := some col } := by
      rw [batchProcess_results]
      rw [show (if idsC2.isEmpty then [] else dedupKinds ["citations"] [])
          = ["citations"] from by decide]
      rw [hrks]
    have hsplit : citationChunks envC2 idsC2 =
        ((getCitationCounts envC2 (idsC2.take 10)).1 ++
            (citationChunks envC2 (idsC2.drop 10)).1,
          (getCitationCounts envC2 (idsC2.take 10)).2 ++ [Ev.sleep 400] ++
            (citationChunks envC2 (idsC2.drop 10)).2) :=
      citationChunks_step envC2 "p1"
        ["p2", "p3", "p4", "p5", "p6", "p7", "p8", "p9", "p10", "p11"] (by decide)
    have hlast : citationChunks envC2 (idsC2.drop 10) =
        getCitationCounts envC2 ((idsC2.drop 10).take 10) :=
      citationChunks_last envC2 "p11" [] (by decide)
    have hcol : col = (getCitationCounts envC2 (idsC2.take 10)).1 ++
        (getCitationCounts envC2 ((idsC2.drop 10).take 10)).1 := by
      rw [hck] at hsplit
      have h1 := congrArg Prod.fst hsplit
      rw [hlast] at h1
      exact h1
    refine ⟨col, by rw [hres], ?_⟩
    refine ⟨⟨"p11", .str "Unknown title", 0, [],
      some "HTTP error! status: 500"⟩, ?_, rfl, rfl⟩
    rw [hcol]
    exact List.mem_append_right _ (by decide)

def envC2w : Env where
  now := 0
  summariesOk := fun _ => true
  summariesStatus := fun _ => 200
  summariesParsed := fun _ => .obj []
  detailsOk := fun _ => true
  detailsStatus := fun _ => 200
  detailsParsed := fun _ => .obj []
  abstractOk := fun _ => false
  abstractStatus := fun _ => 500
  abstractParsed := fun _ => .obj []
  ftOk := fun _ => true
  ftRawErr := fun _ => false
  ftParsed := fun _ => .obj []
  elinkOk := fun _ => true
  elinkStatus := fun _ => 200
  elinkParsed := fun _ => .obj []
  similarResult := fun _ => .ok []
  risResult := fun ids => ⟨ids, "", 0, 0, []⟩

def msgC2w : String := "Failed to get full abstracts: HTTP error! status: 500"

def opC2wA : BatchOperation := ⟨"a", "abstract", .error, some msgC2w⟩

def opC2wC : BatchOperation := ⟨"a", "citations", .completed, none⟩

/-- Claim C2, witness. -/
theorem c2_witness :
    (opC2wA.status = OpStatus.error ∧ opC2wA.error = some msgC2w) ∧
      opC2wC.status = OpStatus.completed := by
  have hga : getFullAbstract envC2w ((("a" : String) :: ([] : List String)).take 20) =
      (.error msgC2w, [Ev.fetchAbstract ["a"]]) := rfl
  have hkid : kindIds ["a"] ["abstract", "citations"] "abstract" = ["a"] := by decide
  have hmsg : (abstractChunks envC2w
      (kindIds ["a"] ["abstract", "citations"] "abstract")).1 = some msgC2w := by
    rw [hkid, abstractChunks_err envC2w "a" [] hga]
  have hkinds : (if (["a"] : List String).isEmpty then []
      else dedupKinds ["abstract", "citations"] []) = ["abstract", "citations"] := by decide
  have ho1 : (runKind envC2w ["a"] ["abstract", "citations"] "abstract"
      ({} : BatchResults)).1 = some msgC2w := by
    rw [runKind_fst_const, runKindOutcome_abstract, hkid, abstractChunks_err envC2w "a" [] hga]
  have hops1 : (runKinds envC2w ["a"] ["abstract", "citations"]
      ["abstract", "citations"] {}).1 = [("abstract", some msgC2w), ("citations", none)] := by
    rw [runKinds_fst_cons, ho1, runKinds_fst_cons, runKind_fst_const, runKindOutcome_citations]
    simp [runKinds]
  have hops : (batchProcess envC2w ["a"] ["abstract", "citations"]).1.operations =
      (initOps ["a"] ["abstract", "citations"]).map
        (applyOutcome [("abstract", some msgC2w), ("citations", none)]) := by
    rw [batchProcess_ops, hkinds, hops1]
  have hlist : (initOps ["a"] ["abstract", "citations"]).map
      (applyOutcome [("abstract", some msgC2w), ("citations", none)]) =
      [opC2wA, opC2wC] := by decide
  have hmemA : opC2wA ∈ (batchProcess envC2w ["a"] ["abstract", "citations"]).1.operations := by
    rw [hops, hlist]
    exact List.mem_cons_self _ _
  have hmemC : opC2wC ∈ (batchProcess envC2w ["a"] ["abstract", "citations"]).1.operations := by
    rw [hops, hlist]
    exact List.mem_cons_of_mem _ (List.mem_cons_self _ _)
  exact ⟨(c2_kind_failure_policy envC2w ["a"] ["abstract", "citations"]).1 msgC2w hmsg
      opC2wA hmemA rfl,
    (c2_kind_failure_policy envC2w ["a"] ["abstract", "citations"]).2.1 opC2wC hmemC rfl⟩

/-! ## Claim C7 -/

theorem batchProcess_trace (env : Env) (pmids operations : List String) :
    (batchProcess env pmids operations).2 =
      (runKinds env pmids operations
        (if pmids.isEmpty then [] else dedupKinds operations []) {}).2.2 := by
  rcases hrk : runKinds env pmids operations
      (if pmids.isEmpty then [] else dedupKinds operations []) {} with ⟨outcomes, res, tr⟩
  simp only [batchProcess, hrk]

theorem runKinds_trace_single (env : Env) (pmids operations : List String) (k : String)
    (res : BatchResults) :
    (runKinds env pmids operations [k] res).2.2 = (runKind env pmids operations k res).2.2 := by
  rcases h1 : runKind env pmids operations k res with ⟨o, r1, t1⟩
  simp [runKinds, h1]

theorem runKind_abstract_trace (env : Env) (pmids operations : List String)
    (res : BatchResults) :
    (runKind env pmids operations "abstract" res).2.2 =
      (abstractChunks env (kindIds pmids operations "abstract")).2.2 := by
  rcases ha : abstractChunks env (kindIds pmids operations "abstract") with ⟨o, col, tr⟩
  simp [runKind, ha]

theorem kindIds_single (pmids : List String) (k : String) : kindIds pmids [k] k = pmids := by
  unfold kindIds
  induction pmids with
  | nil => rfl
  | cons p ps ih =>
    simp only [List.map_cons, List.flatten_cons, ih]
    simp [List.filter_cons]

theorem getFullAbstract_trace (env : Env) (pmids : List String) (hne : pmids ≠ []) :
    (getFullAbstract env pmids).2 = [Ev.fetchAbstract pmids] := by
  unfold getFullAbstract
  rw [if_neg (by simpa [List.isEmpty_iff] using hne)]
  cases hok : env.abstractOk pmids with
  | true =>
    simp only [hok, if_true]
    rcases hmo : mapOpt mkFullAbstract (toArray (jsOr (jsOpt
        (jsField (env.abstractParsed pmids) "PubmedArticleSet") "PubmedArticle")
        (.arr []))) with _ | arts
    · simp [hmo]
    · simp [hmo]
  | false => simp [hok]

/-- Claim C7, confirmed.  batchProcess over 25 identifiers with the abstract
kind, both chunk fetches succeeding, issues exactly two abstract fetches
(the first 20 identifiers then the remaining 5) with exactly one 300 ms
pacing delay strictly between them: no delay before the first call and none
after the last. -/
theorem c7_abstract_chunking (env : Env) (pmids : List String) (h25 : pmids.length = 25)
    {rs1 rs2 : List FullAbstractResult} {tr1 tr2 : List Ev}
    (h1 : getFullAbstract env (pmids.take 20) = (.ok rs1, tr1))
    (h2 : getFullAbstract env (pmids.drop 20) = (.ok rs2, tr2)) :
    (batchProcess env pmids ["abstract"]).2 =
      [Ev.fetchAbstract (pmids.take 20), Ev.sleep 300, Ev.fetchAbstract (pmids.drop 20)] := by
  cases pmids with
  | nil => exact absurd h25 (by decide)
  | cons a rest0 =>
    rw [batchProcess_trace]
    rw [show (if ((a :: rest0) : List String).isEmpty then []
        else dedupKinds ["abstract"] []) = ["abstract"] from by simp [dedupKinds]]
    rw [runKinds_trace_single, runKind_abstract_trace, kindIds_single]
    have hdlen : (((a :: rest0) : List String).drop 20).length = 5 := by
      rw [List.length_drop, h25]
    have hne : (((a :: rest0) : List String).drop 20).isEmpty = false := by
      cases hd : ((a :: rest0) : List String).drop 20 with
      | nil => rw [hd] at hdlen; exact absurd hdlen (by decide)
      | cons x xs => rfl
    obtain ⟨b, bs, hdrop⟩ : ∃ b bs, ((a :: rest0) : List String).drop 20 = b :: bs := by
      cases hd : ((a :: rest0) : List String).drop 20 with
      | nil => rw [hd] at hne; exact absurd hne (by decide)
      | cons b bs => exact ⟨b, bs, rfl⟩
    have hstep := abstractChunks_step env a rest0 hne h1
    have hlen5 : ((b :: bs) : List String).length = 5 := by
      rw [← hdrop, List.length_drop, h25]
    have hnil : ((b :: bs) : List String).drop 20 = [] :=
      List.drop_eq_nil_of_le (by omega)
    have hemp2 : (((b :: bs) : List String).drop 20).isEmpty = true := by
      rw [hnil]
      rfl
    have htk : ((b :: bs) : List String).take 20 = b :: bs :=
      List.take_of_length_le (by omega)
    have h2b : getFullAbstract env (((b :: bs) : List String).take 20) = (.ok rs2, tr2) := by
      rw [htk, ← hdrop]
      exact h2
    have hlast := abstractChunks_last env b bs hemp2 h2b
    have htkne : ((a :: rest0) : List String).take 20 ≠ [] := by
      simp
    have htr1 : tr1 = [Ev.fetchAbstract (((a :: rest0) : List String).take 20)] := by
      have ht := getFullAbstract_trace env (((a :: rest0) : List String).take 20) htkne
      rw [h1] at ht
      exact ht
    have htr2 : tr2 = [Ev.fetchAbstract (((a :: rest0) : List String).drop 20)] := by
      have ht := getFullAbstract_trace env (((a :: rest0) : List String).drop 20)
        (by rw [hdrop]; exact List.cons_ne_nil _ _)
      rw [h2] at ht
      exact ht
    rw [hstep, hdrop, hlast]
    rw [htr1, htr2, hdrop]
    rfl

def idsC7 : List String :=
  ["i1", "i2", "i3", "i4", "i5", "i6", "i7", "i8", "i9", "i10", "i11", "i12", "i13",
   "i14", "i15", "i16", "i17", "i18", "i19", "i20", "i21", "i22", "i23", "i24", "i25"]

/-- Claim C7, witness. -/
theorem c7_witness :
    (batchProcess envT idsC7 ["abstract"]).2 =
      [Ev.fetchAbstract (idsC7.take 20), Ev.sleep 300, Ev.fetchAbstract (idsC7.drop 20)] := by
  have h1 : getFullAbstract envT (idsC7.take 20) =
      (.ok [], [Ev.fetchAbstract (idsC7.take 20)]) := rfl
  have h2 : getFullAbstract envT (idsC7.drop 20) =
      (.ok [], [Ev.fetchAbstract (idsC7.drop 20)]) := rfl
  exact c7_abstract_chunking envT idsC7 (by decide) h1 h2
